import Mathlib

/-!
# Verification of the octofree session engine

Shallow embedding of the core of the `octofree` repository:

* `octofree/utils.py` — the four session-string parsing functions
  (`parse_session_date`, `parse_session_to_reminder`,
  `parse_session_to_end_reminder`, `parse_session_end_date`);
* `octofree/notifier.py` — `check_and_send_notifications`;
* `octofree/main.py`    — the per-poll-tick session processing loop;
* `octofree/validator.py` — `correct_session_data`;
* `octofree/storage.py` — `load_scheduled_sessions` / `load_past_scheduled_sessions`.

Conventions of the embedding:

* Python strings are modelled as `List Char` (ASCII; the session strings the
  program handles are ASCII).  Top-level functions take `String` and work on
  `String.data`.
* Python `datetime` values are modelled by `PyDateTime` (year/month/day/hour/
  minute; the code always produces minute-0, second-0 datetimes and the engine
  only ever compares instants, so whole-minute granularity is faithful).  An
  instant is interpreted through `toMin`, its absolute minute timestamp;
  `datetime` comparison and `timedelta` arithmetic are performed on `toMin`.
* A Python function that can `return None` as well as raise an uncaught
  exception is modelled as `Except PyErr (Option _)`: `.error` is an uncaught
  exception (`"IndexError"`, `"ValueError"`), `.ok none` is `return None`.
* `datetime.now()` (used by the parse functions for the current year and for
  the future-only checks) is passed in explicitly as a `now : PyDateTime`
  parameter; one poll tick uses a single instant.
-/

namespace Octofree

abbrev PyErr := String

/-! ## Character helpers (Python `str` operations on ASCII text) -/

/-- Python `str.lower` restricted to ASCII (the inputs handled are ASCII). -/
def pyLower (c : Char) : Char :=
  if 'A' ≤ c ∧ c ≤ 'Z' then Char.ofNat (c.toNat + 32) else c

/-- Whitespace as stripped by Python `str.strip` / matched by `\s` (ASCII). -/
def isSpaceC (c : Char) : Bool :=
  c = ' ' ∨ c = '\t' ∨ c = '\n' ∨ c = '\r'

/-- Python `str.strip()`. -/
def pyStrip (l : List Char) : List Char :=
  ((l.dropWhile isSpaceC).reverse.dropWhile isSpaceC).reverse

/-- Python `str.split(sep)` for a one-character separator (no maxsplit). -/
def splitOnC (sep : Char) : List Char → List (List Char)
  | [] => [[]]
  | c :: cs =>
    match splitOnC sep cs with
    | [] => [[]]
    | h :: t => if c = sep then [] :: h :: t else (c :: h) :: t

/-- Python list indexing `l[i]`, raising `IndexError` when out of range. -/
def pyIndex {α : Type} (l : List α) (i : Nat) : Except PyErr α :=
  match l.get? i with
  | some x => .ok x
  | none => .error "IndexError"

/-- Value of a decimal digit string, as computed by Python `int(...)`. -/
def digitsToNat (l : List Char) : Nat :=
  l.foldl (fun a c => a * 10 + (c.toNat - 48)) 0

/-! ## `re.sub(r'(\d+)(st|nd|rd|th)', r'\1', s, flags=IGNORECASE)`

A match of the pattern must start at a digit; since the suffix alternatives
contain no digits the digit group of any match is a maximal digit run, so the
left-to-right scan below is the regex's behaviour. -/

/-- If `l` starts with an ordinal suffix `st|nd|rd|th` (case-insensitive),
return the remainder after it. -/
def ordSuffix? : List Char → Option (List Char)
  | a :: b :: rest =>
    if (pyLower a = 's' ∧ pyLower b = 't') ∨ (pyLower a = 'n' ∧ pyLower b = 'd') ∨
       (pyLower a = 'r' ∧ pyLower b = 'd') ∨ (pyLower a = 't' ∧ pyLower b = 'h')
    then some rest else none
  | _ => none

/-- Fuel-indexed scan; the wrapper `stripOrdinals` supplies enough fuel
(one unit per input character), so the base case is never reached. -/
def stripOrdGo : Nat → List Char → List Char
  | 0, l => l
  | _ + 1, [] => []
  | fuel + 1, c :: cs =>
    if c.isDigit then
      let ds := (c :: cs).takeWhile Char.isDigit
      let rest := (c :: cs).dropWhile Char.isDigit
      match ordSuffix? rest with
      | some r => ds ++ stripOrdGo fuel r
      | none => ds ++ stripOrdGo fuel rest
    else c :: stripOrdGo fuel cs

/-- The ordinal-suffix removal `re.sub` applied to the date part. -/
def stripOrdinals (l : List Char) : List Char := stripOrdGo l.length l

/-! ## `re.match(r'(\d+)(am|pm)?', s)` on an already-lowered string -/

inductive Mer where
  | am
  | pm
deriving DecidableEq, Repr

/-- `re.match(r'(\d+)(am|pm)?', s)`: anchored at the start, `\d+` greedy,
the meridiem group optional; trailing characters are ignored.  Returns the
integer value of the digit group and the optional meridiem. -/
def matchNumMer (l : List Char) : Option (Nat × Option Mer) :=
  match l with
  | [] => none
  | c :: _ =>
    if c.isDigit then
      let ds := l.takeWhile Char.isDigit
      let n := digitsToNat ds
      match l.dropWhile Char.isDigit with
      | 'a' :: 'm' :: _ => some (n, some .am)
      | 'p' :: 'm' :: _ => some (n, some .pm)
      | _ => some (n, none)
    else none

/-! ## `datetime.strptime(data, '%A %d %B %Y')`

CPython's `_strptime` compiles the format to an anchored, full-match,
case-insensitive regex: the weekday-name alternation for `%A`, `\s+` for each
literal space, `(3[01]|[12]\d|0[1-9]|[1-9])` for `%d`, the month-name
alternation for `%B` and four digits for `%Y`; it then builds the
`datetime`, which raises `ValueError` (caught by all four parse functions)
when the day is out of range for the month.  The parsed weekday is never
compared against the date. -/

def weekdayNames : List (List Char) :=
  ["monday", "tuesday", "wednesday", "thursday", "friday", "saturday",
   "sunday"].map String.data

def monthNames : List (List Char) :=
  ["january", "february", "march", "april", "may", "june", "july", "august",
   "september", "october", "november", "december"].map String.data

/-- Case-insensitive literal match of `name` (stored lowercase) at the head
of `l`; returns the remainder.  No weekday or month name is a prefix of
another, so trying the names in list order is the alternation's behaviour. -/
def matchNameCI : List Char → List Char → Option (List Char)
  | [], l => some l
  | _ :: _, [] => none
  | n :: ns, c :: cs => if pyLower c = n then matchNameCI ns cs else none

/-- Match one of `names` at the head of `l`; returns the 1-based index of the
matched name and the remainder. -/
def matchFirstCI (names : List (List Char)) (l : List Char) : Option (Nat × List Char) :=
  go 1 names
where
  go (i : Nat) : List (List Char) → Option (Nat × List Char)
    | [] => none
    | n :: ns =>
      match matchNameCI n l with
      | some rest => some (i, rest)
      | none => go (i + 1) ns

/-- `\s+`: at least one whitespace character, consumed greedily. -/
def skipWs1 : List Char → Option (List Char)
  | c :: cs => if isSpaceC c then some (cs.dropWhile isSpaceC) else none
  | [] => none

/-- The candidate matches of the `%d` directive `(3[01]|[12]\d|0[1-9]|[1-9])`
at the head of `l`, in alternation order (the regex backtracks through them
when the rest of the pattern fails). -/
def dayCands : List Char → List (Nat × List Char)
  | a :: b :: rest =>
    (if a = '3' ∧ (b = '0' ∨ b = '1') then [(digitsToNat [a, b], rest)] else []) ++
    (if (a = '1' ∨ a = '2') ∧ b.isDigit then [(digitsToNat [a, b], rest)] else []) ++
    (if a = '0' ∧ b.isDigit ∧ b ≠ '0' then [(digitsToNat [b], rest)] else []) ++
    (if a.isDigit ∧ a ≠ '0' then [(digitsToNat [a], b :: rest)] else [])
  | [a] => if a.isDigit ∧ a ≠ '0' then [(digitsToNat [a], [])] else []
  | [] => []

/-- Gregorian leap year. -/
def isLeap (y : Nat) : Bool := y % 4 = 0 ∧ (y % 100 ≠ 0 ∨ y % 400 = 0)

def daysInMonth (y m : Nat) : Nat :=
  if m = 2 then (if isLeap y then 29 else 28)
  else if m = 4 ∨ m = 6 ∨ m = 9 ∨ m = 11 then 30
  else 31

/-- After `%B`: `\s+`, four digits (`%Y`) and end of string. -/
def tailYear (l : List Char) : Option Nat :=
  match skipWs1 l with
  | none => none
  | some l1 =>
    match l1 with
    | [a, b, c, d] =>
      if a.isDigit ∧ b.isDigit ∧ c.isDigit ∧ d.isDigit
      then some (digitsToNat [a, b, c, d]) else none
    | _ => none

/-- After the weekday and `\s+`: `%d`, `\s+`, `%B`, `\s+`, `%Y`, end; the
`%d` alternatives are tried in order with the rest of the pattern. -/
def dateTail (l : List Char) : Option (Nat × Nat × Nat) :=
  goCands (dayCands l)
where
  afterDay (day : Nat) (l1 : List Char) : Option (Nat × Nat × Nat) :=
    match skipWs1 l1 with
    | none => none
    | some l2 =>
      match matchFirstCI monthNames l2 with
      | none => none
      | some (month, l3) =>
        match tailYear l3 with
        | none => none
        | some y => some (y, month, day)
  goCands : List (Nat × List Char) → Option (Nat × Nat × Nat)
    | [] => none
    | (day, l1) :: rest =>
      match afterDay day l1 with
      | some r => some r
      | none => goCands rest

/-- `datetime.strptime(data, '%A %d %B %Y')` on the full data string,
including the `datetime` construction's day-in-month validation; `none`
models the `ValueError` that the parse functions catch.  Returns
`(year, month, day)`; the weekday is matched but otherwise ignored. -/
def strptimeAdBY (data : List Char) : Option (Nat × Nat × Nat) :=
  match matchFirstCI weekdayNames data with
  | none => none
  | some (_, l1) =>
    match skipWs1 l1 with
    | none => none
    | some l2 =>
      match dateTail l2 with
      | none => none
      | some (y, m, d) =>
        if 1 ≤ d ∧ d ≤ daysInMonth y m then some (y, m, d) else none

/-- Decimal digits of `n` (used to model the f-string `f"{date_part} {year}"`). -/
def natDigits (n : Nat) : List Char :=
  go (n + 1) n []
where
  go : Nat → Nat → List Char → List Char
    | 0, _, acc => acc
    | fuel + 1, n, acc =>
      if n < 10 then Char.ofNat (48 + n) :: acc
      else go fuel (n / 10) (Char.ofNat (48 + n % 10) :: acc)

/-! ## Datetimes -/

/-- A Python `datetime` at whole-minute granularity. -/
structure PyDateTime where
  year : Nat
  month : Nat
  day : Nat
  hour : Nat
  minute : Nat
deriving DecidableEq, Repr

/-- Days since 1970-01-01 of a civil date (standard Gregorian algorithm). -/
def daysFromCivil (y m d : Nat) : Int :=
  let y' : Int := if m ≤ 2 then (y : Int) - 1 else (y : Int)
  let era : Int := y' / 400
  let yoe : Int := y' - era * 400
  let mp : Int := if m > 2 then (m : Int) - 3 else (m : Int) + 9
  let doy : Int := (153 * mp + 2) / 5 + (d : Int) - 1
  let doe : Int := yoe * 365 + yoe / 4 - yoe / 100 + doy
  era * 146097 + doe - 719468

/-- Absolute minute timestamp of a datetime; `datetime` comparison and
`timedelta` arithmetic are interpreted through this. -/
def toMin (t : PyDateTime) : Int :=
  daysFromCivil t.year t.month t.day * 1440 + (t.hour : Int) * 60 + (t.minute : Int)

/-- `dt.replace(hour=h, minute=0)`: raises `ValueError` (uncaught in the
parse functions) when the hour is out of range. -/
def replaceHour (t : PyDateTime) (h : Nat) : Except PyErr PyDateTime :=
  if h ≤ 23 then .ok { t with hour := h, minute := 0 } else .error "ValueError"

/-- 24-hour hour value from a 12-hour numeral and meridiem
(`12am → 0`, `12pm → 12`, otherwise pm adds 12). -/
def to24h (n : Nat) (mer : Mer) : Nat :=
  if mer = .pm ∧ n ≠ 12 then n + 12
  else if mer = .am ∧ n = 12 then 0
  else n

/-! ## The four parse functions of `octofree/utils.py` -/

/-- Translation of `utils.parse_session_date` (utils.py lines 19-103):
start datetime of the session, with PM default for a missing end meridiem,
meridiem inheritance for the start, and the advisory one-shot AM→PM flip
when the computed duration is negative or above 4 hours. -/
def parse_session_date (now : PyDateTime) (session_str : String) :
    Except PyErr (Option PyDateTime) :=
  match splitOnC ',' session_str.data with
  | [p0, p1] =>
    let time_part := pyStrip p0
    let date_part := stripOrdinals (pyStrip p1)
    match splitOnC '-' time_part with
    | [t0, t1] =>
      let start_time_str := pyStrip t0
      let end_time_str := pyStrip t1
      match matchNumMer (end_time_str.map pyLower) with
      | none => .ok none
      | some (endNum, endMerOpt) =>
        let end_ampm := endMerOpt.getD .pm
        match matchNumMer (start_time_str.map pyLower) with
        | none => .ok none
        | some (startNum, startMerOpt) =>
          let ampm := startMerOpt.getD end_ampm
          let hour := to24h startNum ampm
          match strptimeAdBY (date_part ++ ' ' :: natDigits now.year) with
          | none => .ok none
          | some (y, m, d) => do
            let date_obj : PyDateTime := ⟨y, m, d, 0, 0⟩
            let start_dt ← replaceHour date_obj hour
            let end_hour := to24h endNum end_ampm
            let end_dt ← replaceHour date_obj end_hour
            let time_diff : Int := toMin end_dt - toMin start_dt
            if time_diff > 4 * 60 ∨ time_diff < 0 then
              if ampm = .am then
                let hour2 := if startNum ≠ 12 then startNum + 12 else startNum
                let start_dt2 ← replaceHour date_obj hour2
                pure (some start_dt2)
              else pure (some start_dt)
            else pure (some start_dt)
    | _ => .ok none
  | _ => .ok none

/-- Translation of `utils.parse_session_to_reminder` (utils.py lines
105-192): identical parsing to `parse_session_date`, then returns
`start − 5min` (as a minute timestamp), or `None` when the start or the
reminder instant is not strictly in the future of `now`. -/
def parse_session_to_reminder (now : PyDateTime) (session_str : String) :
    Except PyErr (Option Int) :=
  match splitOnC ',' session_str.data with
  | [p0, p1] =>
    let time_part := pyStrip p0
    let date_part := stripOrdinals (pyStrip p1)
    match splitOnC '-' time_part with
    | [t0, t1] =>
      let start_time_str := pyStrip t0
      let end_time_str := pyStrip t1
      match matchNumMer (end_time_str.map pyLower) with
      | none => .ok none
      | some (endNum, endMerOpt) =>
        let end_ampm := endMerOpt.getD .pm
        match matchNumMer (start_time_str.map pyLower) with
        | none => .ok none
        | some (startNum, startMerOpt) =>
          let ampm := startMerOpt.getD end_ampm
          let hour := to24h startNum ampm
          match strptimeAdBY (date_part ++ ' ' :: natDigits now.year) with
          | none => .ok none
          | some (y, m, d) => do
            let date_obj : PyDateTime := ⟨y, m, d, 0, 0⟩
            let session_start ← replaceHour date_obj hour
            let end_hour := to24h endNum end_ampm
            let end_dt ← replaceHour date_obj end_hour
            let time_diff : Int := toMin end_dt - toMin session_start
            let session_start1 ←
              if time_diff > 4 * 60 ∨ time_diff < 0 then
                if ampm = .am then
                  let hour2 := if startNum ≠ 12 then startNum + 12 else startNum
                  replaceHour date_obj hour2
                else pure session_start
              else pure session_start
            if toMin session_start1 ≤ toMin now then pure none
            else
              let reminder_time := toMin session_start1 - 5
              if reminder_time ≤ toMin now then pure none
              else pure (some reminder_time)
    | _ => .ok none
  | _ => .ok none

/-- Translation of `utils.parse_session_to_end_reminder` (utils.py lines
194-247): takes `split('-')[1]` without a length check (`IndexError` when
the time part has no dash), defaults a missing end meridiem to
`'pm' if hour == 12 else 'am'`, and returns `end − 5min` (minute timestamp)
subject to the future-only checks against `now`. -/
def parse_session_to_end_reminder (now : PyDateTime) (session_str : String) :
    Except PyErr (Option Int) :=
  match splitOnC ',' session_str.data with
  | [p0, p1] =>
    let time_part := pyStrip p0
    let date_part := stripOrdinals (pyStrip p1)
    do
      let e ← pyIndex (splitOnC '-' time_part) 1
      let end_time_str := pyStrip e
      match matchNumMer (end_time_str.map pyLower) with
      | none => pure none
      | some (n, merOpt) =>
        let ampm := merOpt.getD (if n = 12 then .pm else .am)
        let hour := to24h n ampm
        match strptimeAdBY (date_part ++ ' ' :: natDigits now.year) with
        | none => pure none
        | some (y, m, d) => do
          let session_end ← replaceHour ⟨y, m, d, 0, 0⟩ hour
          if toMin session_end ≤ toMin now then pure none
          else
            let end_reminder_time := toMin session_end - 5
            if end_reminder_time ≤ toMin now then pure none
            else pure (some end_reminder_time)
  | _ => .ok none

/-- Translation of `utils.parse_session_end_date` (utils.py lines 249-293):
end datetime of the session; same `split('-')[1]` indexing and
`'pm' if hour == 12 else 'am'` meridiem default as
`parse_session_to_end_reminder`, no future-only check. -/
def parse_session_end_date (now : PyDateTime) (session_str : String) :
    Except PyErr (Option PyDateTime) :=
  match splitOnC ',' session_str.data with
  | [p0, p1] =>
    let time_part := pyStrip p0
    let date_part := stripOrdinals (pyStrip p1)
    do
      let e ← pyIndex (splitOnC '-' time_part) 1
      let end_time_str := pyStrip e
      match matchNumMer (end_time_str.map pyLower) with
      | none => pure none
      | some (n, merOpt) =>
        let ampm := merOpt.getD (if n = 12 then .pm else .am)
        let hour := to24h n ampm
        match strptimeAdBY (date_part ++ ' ' :: natDigits now.year) with
        | none => pure none
        | some (y, m, d) => do
          let session_end ← replaceHour ⟨y, m, d, 0, 0⟩ hour
          pure (some session_end)
  | _ => .ok none

/-! ## Session records and the notification engine

A session record as created by `main.py` (lines 451-460): times are stored
as minute timestamps (`toMin` of the parsed datetimes), reminder fields are
`none` when the corresponding parse returned `None`. -/

structure Session where
  session : String
  start_time : Int
  reminder_time : Option Int
  end_time : Int
  end_reminder_time : Option Int
  notified : Bool
  reminder_sent : Bool
  end_sent : Bool
deriving DecidableEq, Repr

inductive NotifTag where
  | announced
  | t5start
  | t5end
deriving DecidableEq, Repr

/-- One call to `send_discord_notification`: the tag is the notification
type (`date_time` / `5min_delta` / `end_state`), the payload is the session
string embedded in the message. -/
structure Notif where
  tag : NotifTag
  msg : String
deriving DecidableEq, Repr

/-- Load-time deduplication of `storage.load_scheduled_sessions` /
`load_past_scheduled_sessions` on well-formed records: keep the first
occurrence of each session string. -/
def dedupGo (seen : List String) : List Session → List Session
  | [] => []
  | s :: rest =>
    if s.session ∈ seen then dedupGo seen rest
    else s :: dedupGo (s.session :: seen) rest

def dedupSessions (l : List Session) : List Session := dedupGo [] l

/-- The body of the `for session in scheduled_sessions[:]` loop of
`notifier.check_and_send_notifications` (notifier.py lines 77-119) for one
record: returns the updated record, the notifications sent for it (in
order), and whether it is moved to past (`end_time <= now`). -/
def processOneSession (now : Int) (s0 : Session) : Session × List Notif × Bool :=
  let p1 : Session × List Notif :=
    if s0.notified = false ∧ now < s0.start_time then
      ({ s0 with notified := true }, [⟨.announced, s0.session⟩])
    else (s0, [])
  let s1 := p1.1
  let p2 : Session × List Notif :=
    match s1.reminder_time with
    | some rt =>
      if s1.reminder_sent = false ∧ rt ≤ now ∧ now < s1.start_time then
        ({ s1 with reminder_sent := true }, [⟨.t5start, s1.session⟩])
      else (s1, [])
    | none => (s1, [])
  let s2 := p2.1
  let p3 : Session × List Notif :=
    match s2.end_reminder_time with
    | some ert =>
      if s2.end_sent = false ∧ ert ≤ now ∧ now < s2.end_time then
        ({ s2 with end_sent := true }, [⟨.t5end, s2.session⟩])
      else (s2, [])
    | none => (s2, [])
  let s3 := p3.1
  (s3, p1.2 ++ p2.2 ++ p3.2, decide (s3.end_time ≤ now))

/-- The full loop of `check_and_send_notifications`: records kept in the
active list, records moved to past (in iteration order), notifications. -/
def notifierLoop (now : Int) : List Session → List Session × List Session × List Notif
  | [] => ([], [], [])
  | s :: rest =>
    let p := processOneSession now s
    let r := notifierLoop now rest
    if p.2.2 then (r.1, p.1 :: r.2.1, p.2.1 ++ r.2.2)
    else (p.1 :: r.1, r.2.1, p.2.1 ++ r.2.2)

/-- Translation of `notifier.check_and_send_notifications` (notifier.py
lines 55-123): load (with dedup) both collections, advance every active
record, move ended records to past, save.  Returns
(new scheduled, new past, notifications sent). -/
def check_and_send_notifications (now : Int) (scheduled past : List Session) :
    List Session × List Session × List Notif :=
  let sched := dedupSessions scheduled
  let pastL := dedupSessions past
  let r := notifierLoop now sched
  (r.1, pastL ++ r.2.1, r.2.2)

/-! ## Record creation and the main poll tick (`main.py` lines 353-499) -/

/-- Creation of a session record for one string (main.py lines 426-460):
parse all four times (exceptions propagate), skip (`none`) when start or
end is missing or the duration is negative, otherwise build the record
with all flags false. -/
def createSessionData (now : PyDateTime) (s : String) : Except PyErr (Option Session) := do
  let start ← parse_session_date now s
  let reminder ← parse_session_to_reminder now s
  let endDt ← parse_session_end_date now s
  let endReminder ← parse_session_to_end_reminder now s
  match start, endDt with
  | some st, some en =>
    if toMin en - toMin st < 0 then pure none
    else
      pure (some
        { session := s, start_time := toMin st, reminder_time := reminder,
          end_time := toMin en, end_reminder_time := endReminder,
          notified := false, reminder_sent := false, end_sent := false })
  | _, _ => pure none

/-- Creation of a session record by the startup recovery path (main.py
lines 211-248): parse all four times, and when start and end are present
build the record — with *no* duration check — taking the notification
flags from an archived record of the same text when one exists
(`existing_in_past`), all false otherwise. -/
def recoverSessionData (now : PyDateTime) (existingInPast : Option Session)
    (s : String) : Except PyErr (Option Session) := do
  let start ← parse_session_date now s
  let reminder ← parse_session_to_reminder now s
  let endDt ← parse_session_end_date now s
  let endReminder ← parse_session_to_end_reminder now s
  match start, endDt with
  | some st, some en =>
    pure (some
      { session := s, start_time := toMin st, reminder_time := reminder,
        end_time := toMin en, end_reminder_time := endReminder,
        notified := (match existingInPast with
          | some p => p.notified
          | none => false),
        reminder_sent := (match existingInPast with
          | some p => p.reminder_sent
          | none => false),
        end_sent := (match existingInPast with
          | some p => p.end_sent
          | none => false) })
  | _, _ => pure none

/-- The `for session_str in sessions_to_process` loop (main.py lines
408-486) in normal mode (`test_mode` false): skip strings already tracked
in either collection, create the rest, and when the extraction type is
`next` send the initial announcement at creation and set `notified`. -/
def processSessions (now : PyDateTime) (isNext : Bool) (pastStrs : List String) :
    List String → List Session → Except PyErr (List Session × List Notif)
  | [], sched => .ok (sched, [])
  | s :: rest, sched =>
    if s ∈ sched.map Session.session then processSessions now isNext pastStrs rest sched
    else if s ∈ pastStrs then processSessions now isNext pastStrs rest sched
    else do
      match ← createSessionData now s with
      | none => processSessions now isNext pastStrs rest sched
      | some r =>
        let p : Session × List Notif :=
          if isNext then ({ r with notified := true }, [⟨.announced, s⟩]) else (r, [])
        let res ← processSessions now isNext pastStrs rest (sched ++ [p.1])
        .ok (res.1, p.2 ++ res.2)

/-- First-occurrence deduplication of a string list (the model's fixed
iteration order for a Python `set` built from the list). -/
def pyDedup : List String → List String :=
  go []
where
  go (seen : List String) : List String → List String
    | [] => []
    | s :: rest => if s ∈ seen then go seen rest else s :: go (s :: seen) rest

/-- Persistent state between poll ticks: the contents of
`scheduled_sessions.json`, `past_scheduled_sessions.json` and
`last_extracted_sessions.json`. -/
structure St where
  scheduled : List Session
  past : List Session
  lastExtracted : List String
deriving DecidableEq, Repr

/-- Input of one poll tick: the extracted session strings, whether the
extraction type is `next`, and the tick's clock. -/
structure TickInput where
  current : List String
  isNext : Bool
  now : PyDateTime

/-- One iteration of the poll loop of `main.main` (main.py lines 353-499)
in normal mode: when extraction produced nothing the whole block is
skipped; otherwise compute `new_sessions` as the set difference against
the last extraction, fall back to the missing-from-tracking recovery scan,
create records for the strings to process, then run
`check_and_send_notifications` and save the extraction list.  Python-level
exceptions from the parse functions propagate out of the loop (`.error`). -/
def mainTick (inp : TickInput) (st : St) : Except PyErr (St × List Notif) :=
  if inp.current = [] then .ok (st, [])
  else
    let sched := dedupSessions st.scheduled
    let past := dedupSessions st.past
    let tracked := sched.map Session.session
    let pastStrs := past.map Session.session
    let newSessions := (pyDedup inp.current).filter (fun s => s ∉ st.lastExtracted)
    let toProcess :=
      if newSessions ≠ [] then newSessions
      else inp.current.filter (fun s => s ∉ tracked ∧ s ∉ pastStrs)
    do
      let created ← processSessions inp.now inp.isNext pastStrs toProcess sched
      let r := check_and_send_notifications (toMin inp.now) created.1 past
      .ok ({ scheduled := r.1, past := r.2.1, lastExtracted := inp.current },
           created.2 ++ r.2.2)

/-- Sequencing of poll ticks, collecting all notifications. -/
def ticksFrom (st : St) : List TickInput → Except PyErr (St × List Notif)
  | [] => .ok (st, [])
  | i :: rest => do
    let p ← mainTick i st
    let q ← ticksFrom p.1 rest
    .ok (q.1, p.2 ++ q.2)

/-- States reachable by the poll loop from an empty installation. -/
inductive Reachable : St → Prop
  | init : Reachable ⟨[], [], []⟩
  | step {st st' : St} {i : TickInput} {ns : List Notif} :
      Reachable st → mainTick i st = .ok (st', ns) → Reachable st'

/-- All session strings present in the state (active then archived). -/
def stStrings (st : St) : List String :=
  st.scheduled.map Session.session ++ st.past.map Session.session

/-! ## `validator.correct_session_data` (validator.py lines 114-148) -/

/-- Startup reconciliation of one record: re-parse all four times from the
stored session string with the wall-clock `now`, overwriting a stored field
only when the re-parse produced a value (`if start_time: ...` etc.); the
notification flags are copied unchanged. -/
def correct_session_data (now : PyDateTime) (r : Session) : Except PyErr Session := do
  let start ← parse_session_date now r.session
  let reminder ← parse_session_to_reminder now r.session
  let endDt ← parse_session_end_date now r.session
  let endReminder ← parse_session_to_end_reminder now r.session
  let r1 := match start with
    | some st => { r with start_time := toMin st }
    | none => r
  let r2 := match reminder with
    | some rm => { r1 with reminder_time := some rm }
    | none => r1
  let r3 := match endDt with
    | some e => { r2 with end_time := toMin e }
    | none => r2
  let r4 := match endReminder with
    | some er => { r3 with end_reminder_time := some er }
    | none => r3
  pure r4

/-! ## JSON-level storage loading (`storage.py` lines 26-157)

The load functions are modelled at the JSON level: a file is missing,
unparseable (the caught `json.JSONDecodeError`), or holds a parsed JSON
value.  `json.load` of a non-container value followed by
`enumerate(sessions)` raises `TypeError`, which is not in the `except`
clause of either loader. -/

inductive Json where
  | null
  | bool (b : Bool)
  | num (n : Int)
  | str (s : String)
  | arr (xs : List Json)
  | obj (kvs : List (String × Json))

/-- `dict.get(key, default)` on an object produced by `json.load`
(duplicate keys cannot survive `json.load`, so first-match lookup). -/
def jGet (kvs : List (String × Json)) (k : String) : Option Json :=
  (kvs.find? (fun p => p.1 = k)).map (·.2)

inductive FileSt where
  | missing
  | badJson
  | parsed (v : Json)

/-- The validation/dedup loop shared by both loaders (storage.py lines
57-76 and 126-145): keep the first entry for each session string, skip
entries that are not dicts or whose `session` value is falsy or not a
string. -/
def dedupJsonGo (seen : List String) : List Json → List Json
  | [] => []
  | j :: rest =>
    match j with
    | .obj kvs =>
      match jGet kvs "session" with
      | some (.str s) =>
        if s = "" then dedupJsonGo seen rest
        else if s ∈ seen then dedupJsonGo seen rest
        else j :: dedupJsonGo (s :: seen) rest
      | _ => dedupJsonGo seen rest
    | _ => dedupJsonGo seen rest

/-- What `enumerate(sessions)` iterates over for each JSON value: a list's
elements, a string's characters (each a one-character string), a dict's
keys; `null`, booleans and numbers raise `TypeError`. -/
def jsonIter : Json → Except PyErr (List Json)
  | .arr xs => .ok xs
  | .str s => .ok (s.data.map (fun c => .str (String.mk [c])))
  | .obj kvs => .ok (kvs.map (fun p => .str p.1))
  | _ => .error "TypeError"

/-- Translation of `storage.load_scheduled_sessions` (storage.py lines
26-88): missing or unparseable file gives `[]`; otherwise iterate the
parsed value, validating and deduplicating; `TypeError` from `enumerate`
propagates. -/
def load_scheduled_sessions (f : FileSt) : Except PyErr (List Json) :=
  match f with
  | .missing => .ok []
  | .badJson => .ok []
  | .parsed v => do
    let xs ← jsonIter v
    .ok (dedupJsonGo [] xs)

/-- Translation of `storage.load_past_scheduled_sessions` (storage.py
lines 102-157): same logic as `load_scheduled_sessions` on the past file. -/
def load_past_scheduled_sessions (f : FileSt) : Except PyErr (List Json) :=
  match f with
  | .missing => .ok []
  | .badJson => .ok []
  | .parsed v => do
    let xs ← jsonIter v
    .ok (dedupJsonGo [] xs)

/-! ## Derived notions used by the statements -/

/-- Number of notifications with a given tag for a given session string. -/
def tagCount (t : NotifTag) (x : String) (ns : List Notif) : Nat :=
  (ns.filter (fun n => n.tag = t ∧ n.msg = x)).length

/-- The records for a session string in the active collection. -/
def schedFor (st : St) (x : String) : List Session :=
  st.scheduled.filter (fun r => r.session = x)

/-- The records for a session string in the archived collection. -/
def pastFor (st : St) (x : String) : List Session :=
  st.past.filter (fun r => r.session = x)

/-- `x` has exactly one record, active and not yet announced. -/
def QState (st : St) (x : String) : Prop :=
  (∃ r, schedFor st x = [r] ∧ r.notified = false) ∧ pastFor st x = []

/-- `x` has exactly one record, and the announcement stage is closed for it:
either the active record is already announced, or the record is archived. -/
def PState (st : St) (x : String) : Prop :=
  ((∃ r, schedFor st x = [r] ∧ r.notified = true) ∧ pastFor st x = []) ∨
  (schedFor st x = [] ∧ ∃ r, pastFor st x = [r])

/-! ## Concrete values used in counterexamples and witnesses -/

/-- An example wall clock: 2025-10-20 12:00 (the spec's scenario clock). -/
def octNow : PyDateTime := ⟨2025, 10, 20, 12, 0⟩

/-- A later wall clock: 2025-10-25 12:00, after the example session ended. -/
def octLater : PyDateTime := ⟨2025, 10, 25, 12, 0⟩

/-- A record first observed only after its window passed: start and end in
the past of the tick's clock (300), no notification sent yet. -/
def lateRec : Session :=
  { session := "s", start_time := 100, reminder_time := none,
    end_time := 200, end_reminder_time := none, notified := false,
    reminder_sent := false, end_sent := false }

/-- A stored record for `"9-10pm, Friday 24th October"` with both reminder
fields null (as persisted by a late first observation). -/
def storedRec : Session :=
  { session := "9-10pm, Friday 24th October", start_time := 29355660,
    reminder_time := none, end_time := 29355720, end_reminder_time := none,
    notified := true, reminder_sent := false, end_sent := false }

/-- The record created for `"9-10pm, Friday 24th October"` at clock
`octNow` (start 2025-10-24 21:00, end 22:00, reminders 5 minutes before). -/
def sessRec : Session :=
  { session := "9-10pm, Friday 24th October", start_time := 29355660,
    reminder_time := some 29355655, end_time := 29355720,
    end_reminder_time := some 29355715, notified := false,
    reminder_sent := false, end_sent := false }

/-- The stored start time of `storedRec` as a datetime (2025-10-24 21:00):
the instant the claim says reconciliation pins `now` to. -/
def storedStart : PyDateTime := ⟨2025, 10, 24, 21, 0⟩

/-- Well-formed persisted entries used in the storage theorems. -/
def goodA : Json := .obj [("session", .str "A"), ("notified", .bool false)]

def dupA : Json := .obj [("session", .str "A"), ("notified", .bool true)]

def badEntries : List Json :=
  [.obj [("other", .str "x")], .str "junk", .obj [("session", .str "")],
   .obj [("session", .num 5)]]

def goodB : Json := .obj [("session", .str "B")]

/-- A demo poll-tick input: the spec's example string observed at
`octNow`, extraction type not `next`. -/
def demoInput : TickInput :=
  { current := ["9-10pm, Friday 24th October"], isNext := false, now := octNow }

/-- The state after one `demoInput` tick from an empty installation. -/
def demoSt : St :=
  { scheduled := [{ sessRec with notified := true }], past := [],
    lastExtracted := ["9-10pm, Friday 24th October"] }

/-! # Lemmas about the notifier stage -/

theorem processOne_fields (now : Int) (r : Session) :
    (processOneSession now r).1.session = r.session ∧
    (processOneSession now r).1.start_time = r.start_time ∧
    (processOneSession now r).1.end_time = r.end_time ∧
    (processOneSession now r).1.reminder_time = r.reminder_time ∧
    (processOneSession now r).1.end_reminder_time = r.end_reminder_time := by
  rcases r with ⟨s, st, rt, et, ert, nf, rs, es⟩
  simp only [processOneSession]
  cases rt <;> cases ert <;> repeat (first | split_ifs | simp_all)

theorem processOne_arch (now : Int) (r : Session) :
    (processOneSession now r).2.2 = decide (r.end_time ≤ now) := by
  rcases r with ⟨s, st, rt, et, ert, nf, rs, es⟩
  simp only [processOneSession]
  cases rt <;> cases ert <;> repeat (first | split_ifs | simp_all)

theorem processOne_notified (now : Int) (r : Session) :
    (processOneSession now r).1.notified = (r.notified || decide (now < r.start_time)) := by
  rcases r with ⟨s, st, rt, et, ert, nf, rs, es⟩
  simp only [processOneSession]
  cases rt <;> cases ert <;>
    repeat (first | split_ifs | simp_all | (cases nf <;> simp_all) | omega)

theorem processOne_ann (now : Int) (r : Session) (x : String) :
    tagCount .announced x (processOneSession now r).2.1 =
      if r.session = x ∧ r.notified = false ∧ now < r.start_time then 1 else 0 := by
  rcases r with ⟨s, st, rt, et, ert, nf, rs, es⟩
  simp only [processOneSession, tagCount]
  cases rt <;> cases ert <;> repeat (first | split_ifs | simp_all [List.filter])

@[simp]
theorem pyBind_ok {α β : Type} (a : α) (f : α → Except PyErr β) :
    (Except.ok a >>= f) = f a := rfl

@[simp]
theorem pyBind_err {α β : Type} (e : PyErr) (f : α → Except PyErr β) :
    ((Except.error e : Except PyErr α) >>= f) = Except.error e := rfl

theorem processOne_reminder_pres (now : Int) (r : Session) :
    (processOneSession now r).1.reminder_time = r.reminder_time :=
  (processOne_fields now r).2.2.2.1

/-- **C6** (temporal): at a poll tick the "T-5 start" reminder fires for a
record exactly when `reminder_time` is non-null, `reminder_sent` is false
and `reminder_time ≤ now < start_time`; the "T-5 end" reminder fires
exactly when `end_reminder_time` is non-null, `end_sent` is false and
`end_reminder_time ≤ now < end_time`; and a record whose `reminder_time`
is null fires no start reminder and keeps a null `reminder_time` through
any sequence of ticks. -/
theorem reminder_fire_iff (now : Int) (r : Session) :
    (tagCount .t5start r.session (processOneSession now r).2.1 = 1 ↔
      (∃ rt, r.reminder_time = some rt ∧ r.reminder_sent = false ∧
        rt ≤ now ∧ now < r.start_time)) ∧
    (tagCount .t5end r.session (processOneSession now r).2.1 = 1 ↔
      (∃ ert, r.end_reminder_time = some ert ∧ r.end_sent = false ∧
        ert ≤ now ∧ now < r.end_time)) ∧
    (r.reminder_time = none →
      tagCount .t5start r.session (processOneSession now r).2.1 = 0 ∧
      ∀ nows : List Int,
        ((nows.foldl (fun acc n => (processOneSession n acc).1) r).reminder_time
          = none)) := by
  refine ⟨?_, ?_, fun hnone => ⟨?_, ?_⟩⟩
  · rcases r with ⟨s, st, rt, et, ert, nf, rs, es⟩
    simp only [processOneSession, tagCount]
    cases rt <;> cases ert <;>
      repeat (first | split_ifs | simp_all [List.filter] | omega)
  · rcases r with ⟨s, st, rt, et, ert, nf, rs, es⟩
    simp only [processOneSession, tagCount]
    cases rt <;> cases ert <;>
      repeat (first | split_ifs | simp_all [List.filter] | omega)
  · rcases r with ⟨s, st, rt, et, ert, nf, rs, es⟩
    cases rt with
    | none =>
      simp only [processOneSession, tagCount]
      cases ert <;>
        repeat (first | split_ifs | simp_all [List.filter] | omega)
    | some rt0 => simp at hnone
  · intro nows
    induction nows generalizing r with
    | nil => exact hnone
    | cons n rest ih =>
      simp only [List.foldl_cons]
      exact ih _ ((processOne_reminder_pres n r).trans hnone)

/-- Witness for the hypothesis-bearing parts of `reminder_fire_iff`. -/
theorem reminder_fire_iff_witness :
    tagCount .t5start lateRec.session (processOneSession 300 lateRec).2.1 = 0 ∧
    ((([150, 300] : List Int).foldl
        (fun acc n => (processOneSession n acc).1) lateRec).reminder_time = none) := by
  have h := ((reminder_fire_iff 300 lateRec).2.2 (by rfl))
  exact ⟨h.1, h.2 [150, 300]⟩

/-- **C4 amended** (functional correctness): at a poll tick the "announced"
notification for an active record fires exactly when `notified` is false
*and* `start_time` is still in the future of `now`; archival alone is
unconditional on the flags (`end_time ≤ now`), so a record whose
`start_time` has passed un-notified is archived with `notified` still
false. -/
theorem announced_guard (now : Int) (r : Session) :
    (tagCount .announced r.session (processOneSession now r).2.1 = 1 ↔
      r.notified = false ∧ now < r.start_time) ∧
    ((processOneSession now r).2.2 = true ↔ r.end_time ≤ now) ∧
    (r.start_time ≤ now → (processOneSession now r).1.notified = r.notified) := by
  refine ⟨?_, ?_, fun h => ?_⟩
  · rw [processOne_ann]
    split_ifs with hc
    · simp [hc.2.1, hc.2.2]
    · constructor
      · intro h0; simp at h0
      · intro hb
        exact absurd ⟨rfl, hb⟩ hc
  · rw [processOne_arch]; simp
  · rw [processOne_notified]
    have : decide (now < r.start_time) = false := by simp; omega
    rw [this, Bool.or_false]

/-- Witness for the hypothesis-bearing part of `announced_guard`. -/
theorem announced_guard_witness :
    (processOneSession 300 lateRec).1.notified = lateRec.notified :=
  (announced_guard 300 lateRec).2.2 (by decide)

/-- **C4 counterexample**: a record with `notified = false` whose
`start_time` (100) is already past the tick's `now` (300) does *not* get
the "announced" notification on its first tick — the tick sends no
notification at all — and, its `end_time` (200) having passed, it is
archived in that same tick with `notified` still false. -/
theorem announced_guard_counterexample :
    lateRec.notified = false ∧ lateRec.start_time < 300 ∧ lateRec.end_time ≤ 300 ∧
    check_and_send_notifications 300 [lateRec] [] = ([], [lateRec], []) ∧
    lateRec.notified ≠ true := by
  exact ⟨rfl, by decide, by decide, rfl, by decide⟩

/-- **C7** (invariants): the notifier tick never lowers `notified`,
`reminder_sent` or `end_sent`, and startup reconciliation
(`correct_session_data`) rewrites only datetime fields: the three
notification flags (and the session string) of the corrected record are
exactly the stored ones. -/
theorem flags_monotone :
    (∀ (now : Int) (r : Session),
      (r.notified = true → (processOneSession now r).1.notified = true) ∧
      (r.reminder_sent = true → (processOneSession now r).1.reminder_sent = true) ∧
      (r.end_sent = true → (processOneSession now r).1.end_sent = true)) ∧
    (∀ (now : PyDateTime) (r r' : Session), correct_session_data now r = .ok r' →
      r'.notified = r.notified ∧ r'.reminder_sent = r.reminder_sent ∧
      r'.end_sent = r.end_sent ∧ r'.session = r.session) := by
  constructor
  · intro now r
    rcases r with ⟨s, st, rt, et, ert, nf, rs, es⟩
    simp only [processOneSession]
    cases rt <;> cases ert <;>
      repeat (first | split_ifs | simp_all | omega)
  · intro now r r' h
    simp only [correct_session_data] at h
    rcases h1 : parse_session_date now r.session with e | start <;> rw [h1] at h
    · exact Except.noConfusion (pyBind_err e _ ▸ h)
    rw [pyBind_ok] at h
    rcases h2 : parse_session_to_reminder now r.session with e | reminder <;> rw [h2] at h
    · exact Except.noConfusion (pyBind_err e _ ▸ h)
    rw [pyBind_ok] at h
    rcases h3 : parse_session_end_date now r.session with e | endDt <;> rw [h3] at h
    · exact Except.noConfusion (pyBind_err e _ ▸ h)
    rw [pyBind_ok] at h
    rcases h4 : parse_session_to_end_reminder now r.session with e | endReminder <;> rw [h4] at h
    · exact Except.noConfusion (pyBind_err e _ ▸ h)
    rw [pyBind_ok] at h
    rcases start with _ | st <;> rcases reminder with _ | rm <;>
      rcases endDt with _ | ed <;> rcases endReminder with _ | er <;>
      (simp only [pure, Except.pure] at h; cases h; simp)

/-- Witness for the hypothesis-bearing parts of `flags_monotone`. -/
theorem flags_monotone_witness :
    (processOneSession 300 storedRec).1.notified = true ∧
    ({ storedRec with
        reminder_time := some 29355655,
        end_reminder_time := some 29355715 } : Session).notified = storedRec.notified :=
  ⟨(flags_monotone.1 300 storedRec).1 rfl,
   (flags_monotone.2 octNow storedRec
     { storedRec with
        reminder_time := some 29355655,
        end_reminder_time := some 29355715 } (by rfl)).1⟩

/-- What creation guarantees about a record it produces: it carries the
observed string, all flags start false, and the duration is non-negative
(`main.py` line 446 skips negative durations). -/
theorem createSessionData_spec (now : PyDateTime) (s : String) (r : Session)
    (h : createSessionData now s = .ok (some r)) :
    r.session = s ∧ r.notified = false ∧ r.reminder_sent = false ∧
    r.end_sent = false ∧ r.start_time ≤ r.end_time := by
  simp only [createSessionData] at h
  rcases h1 : parse_session_date now s with e | start <;> rw [h1] at h
  · exact Except.noConfusion (pyBind_err e _ ▸ h)
  rw [pyBind_ok] at h
  rcases h2 : parse_session_to_reminder now s with e | reminder <;> rw [h2] at h
  · exact Except.noConfusion (pyBind_err e _ ▸ h)
  rw [pyBind_ok] at h
  rcases h3 : parse_session_end_date now s with e | endDt <;> rw [h3] at h
  · exact Except.noConfusion (pyBind_err e _ ▸ h)
  rw [pyBind_ok] at h
  rcases h4 : parse_session_to_end_reminder now s with e | endReminder <;> rw [h4] at h
  · exact Except.noConfusion (pyBind_err e _ ▸ h)
  rw [pyBind_ok] at h
  rcases start with _ | st <;> rcases endDt with _ | en <;>
    simp only [pure, Except.pure] at h <;> try cases h
  split_ifs at h with hd
  · cases h
  · simp only [Except.ok.injEq, Option.some.injEq] at h
    subst h
    refine ⟨rfl, rfl, rfl, rfl, by simp only []; omega⟩

/-! # Claims about the resolver (C1, C2, C3) -/

/-- **C1 counterexample**: `"5-11pm, Saturday 4th October"` is accepted by
both resolvers (start 17:00, end 23:00) yet its duration is 6 hours, and
`"9-9pm, Saturday 4th October"` resolves to `end_time = start_time`
(21:00-21:00), so `0 < end − start ≤ 4h` fails for resolved sessions. -/
theorem duration_invariant_counterexample :
    parse_session_date octNow "5-11pm, Saturday 4th October" =
      .ok (some ⟨2025, 10, 4, 17, 0⟩) ∧
    parse_session_end_date octNow "5-11pm, Saturday 4th October" =
      .ok (some ⟨2025, 10, 4, 23, 0⟩) ∧
    ¬ (0 < toMin ⟨2025, 10, 4, 23, 0⟩ - toMin ⟨2025, 10, 4, 17, 0⟩ ∧
       toMin ⟨2025, 10, 4, 23, 0⟩ - toMin ⟨2025, 10, 4, 17, 0⟩ ≤ 4 * 60) ∧
    parse_session_date octNow "9-9pm, Saturday 4th October" =
      .ok (some ⟨2025, 10, 4, 21, 0⟩) ∧
    parse_session_end_date octNow "9-9pm, Saturday 4th October" =
      .ok (some ⟨2025, 10, 4, 21, 0⟩) :=
  ⟨rfl, rfl, by decide, rfl, rfl⟩

/-- **C1 amended**: the duration invariant is enforced only weakly, and
only on one of the two creation paths: a record created by the poll-tick
loop (`createSessionData`, main.py lines 426-460) satisfies
`start_time ≤ end_time` because that path skips negative durations, but
zero and greater-than-4h durations are accepted there, and the startup
recovery path (`recoverSessionData`, main.py lines 211-248) performs no
duration check at all — it persists `"9-10, Friday 24th October"` with
start 21:00 and end 10:00 the same day, an end-before-start record. -/
theorem created_duration_nonneg :
    (∀ (now : PyDateTime) (s : String) (r : Session),
      createSessionData now s = .ok (some r) → r.start_time ≤ r.end_time) ∧
    (∃ r : Session,
      recoverSessionData octNow none "9-10, Friday 24th October" = .ok (some r) ∧
      r.end_time < r.start_time) := by
  constructor
  · exact fun now s r h => (createSessionData_spec now s r h).2.2.2.2
  · refine ⟨{ session := "9-10, Friday 24th October", start_time := 29355660,
              reminder_time := some 29355655, end_time := 29355000,
              end_reminder_time := some 29354995, notified := false,
              reminder_sent := false, end_sent := false }, by rfl, by decide⟩

/-- Witness for the hypothesis-bearing part of `created_duration_nonneg`
at the spec's own example. -/
theorem created_duration_nonneg_witness : sessRec.start_time ≤ sessRec.end_time :=
  created_duration_nonneg.1 octNow "9-10pm, Friday 24th October" sessRec (by rfl)

/-- **C2**: for `"9-10, Friday 24th October"` (no end meridiem) the
resolved end is 10:00 — `parse_session_end_date` defaults a missing end
meridiem to `'pm' if hour == 12 else 'am'`, hour 10, not the claimed 22 —
while `parse_session_date` validates the start against an end hour of 22
(PM default) and therefore keeps start 21:00; the stored pair would be
end-before-start, and the engine drops the session entirely
(`createSessionData` returns `None`). -/
theorem end_meridiem_divergence :
    parse_session_end_date octNow "9-10, Friday 24th October" =
      .ok (some ⟨2025, 10, 24, 10, 0⟩) ∧
    (⟨2025, 10, 24, 10, 0⟩ : PyDateTime).hour ≠ 22 ∧
    parse_session_date octNow "9-10, Friday 24th October" =
      .ok (some ⟨2025, 10, 24, 21, 0⟩) ∧
    createSessionData octNow "9-10, Friday 24th October" = .ok none :=
  ⟨rfl, by decide, rfl, rfl⟩

/-- **C3**: for `"9pm, Friday 24th October"` (time part does not split in
two on `-`) the two start-side parsers return `None`, but
`parse_session_end_date` and `parse_session_to_end_reminder` raise
`IndexError` (`split('-')[1]` without a length check), and the poll tick
propagates the exception instead of skipping the string; a three-part time
range `"9-10-11pm"` is not rejected by the end parser either. -/
theorem missing_dash_raises :
    parse_session_date octNow "9pm, Friday 24th October" = .ok none ∧
    parse_session_to_reminder octNow "9pm, Friday 24th October" = .ok none ∧
    parse_session_end_date octNow "9pm, Friday 24th October" = .error "IndexError" ∧
    parse_session_to_end_reminder octNow "9pm, Friday 24th October" = .error "IndexError" ∧
    mainTick ⟨["9pm, Friday 24th October"], false, octNow⟩ ⟨[], [], []⟩ =
      .error "IndexError" ∧
    parse_session_date octNow "9-10-11pm, Saturday 4th October" = .ok none ∧
    parse_session_end_date octNow "9-10-11pm, Saturday 4th October" =
      .ok (some ⟨2025, 10, 4, 10, 0⟩) :=
  ⟨rfl, rfl, rfl, rfl, rfl, rfl, rfl⟩

/-! # Claims about startup reconciliation (C8) and storage loading (C9) -/

/-- **C8 counterexample**: reconciling `storedRec` at wall clock `octNow`
(2025-10-20) fills in `reminder_time`/`end_reminder_time`, while the
recomputation with `now` pinned to the record's own stored `start_time`
(2025-10-24 21:00) — what the claim says reconciliation does — leaves
`reminder_time` null, and reconciling after the session (2025-10-25)
leaves the record unchanged: the nulling of `reminder_time` /
`end_reminder_time` depends on the wall-clock time of the run. -/
theorem reconciliation_counterexample :
    correct_session_data octNow storedRec =
      .ok { storedRec with
              reminder_time := some 29355655,
              end_reminder_time := some 29355715 } ∧
    correct_session_data storedStart storedRec =
      .ok { storedRec with end_reminder_time := some 29355715 } ∧
    correct_session_data octLater storedRec = .ok storedRec ∧
    ({ storedRec with
         reminder_time := some 29355655,
         end_reminder_time := some 29355715 } : Session) ≠ storedRec :=
  ⟨rfl, rfl, rfl, by decide⟩

/-- `parse_session_to_reminder` is future-only with respect to the `now`
it is called with: a non-`None` result is strictly later than `now`. -/
theorem parse_reminder_future (now : PyDateTime) (s : String) (v : Int)
    (h : parse_session_to_reminder now s = .ok (some v)) : toMin now < v := by
  unfold parse_session_to_reminder at h
  repeat (first
    | omega
    | (split at h)
    | (simp only [pyBind_ok, pyBind_err, replaceHour, pure, Except.pure] at h)
    | (cases h))

/-- `parse_session_to_end_reminder` is future-only with respect to the
`now` it is called with. -/
theorem parse_end_reminder_future (now : PyDateTime) (s : String) (v : Int)
    (h : parse_session_to_end_reminder now s = .ok (some v)) : toMin now < v := by
  unfold parse_session_to_end_reminder at h
  repeat (first
    | omega
    | (split at h)
    | (simp only [pyBind_ok, pyBind_err, replaceHour, pyIndex, pure, Except.pure] at h)
    | (cases h))

/-- **C8 amended**: startup reconciliation re-runs the resolver with the
wall-clock `now` of the reconciliation run, not with `now` pinned to the
stored `start_time`; each reminder field is either left exactly as stored
(when the re-parse returned `None` — in particular whenever the instant is
not in the future of that wall clock) or overwritten with an instant
strictly later than that wall clock, so the future-only nulling depends on
when reconciliation runs. -/
theorem reconciliation_wall_clock (now : PyDateTime) (r r' : Session)
    (h : correct_session_data now r = .ok r') :
    (r'.reminder_time = r.reminder_time ∨
      ∃ v, r'.reminder_time = some v ∧ toMin now < v) ∧
    (r'.end_reminder_time = r.end_reminder_time ∨
      ∃ v, r'.end_reminder_time = some v ∧ toMin now < v) := by
  simp only [correct_session_data] at h
  rcases h1 : parse_session_date now r.session with e | start <;> rw [h1] at h
  · exact Except.noConfusion (pyBind_err e _ ▸ h)
  rw [pyBind_ok] at h
  rcases h2 : parse_session_to_reminder now r.session with e | reminder <;> rw [h2] at h
  · exact Except.noConfusion (pyBind_err e _ ▸ h)
  rw [pyBind_ok] at h
  rcases h3 : parse_session_end_date now r.session with e | endDt <;> rw [h3] at h
  · exact Except.noConfusion (pyBind_err e _ ▸ h)
  rw [pyBind_ok] at h
  rcases h4 : parse_session_to_end_reminder now r.session with e | endReminder <;> rw [h4] at h
  · exact Except.noConfusion (pyBind_err e _ ▸ h)
  rw [pyBind_ok] at h
  rcases start with _ | st <;> rcases reminder with _ | rm <;>
    rcases endDt with _ | ed <;> rcases endReminder with _ | er <;>
    (simp only [pure, Except.pure] at h; cases h; simp) <;>
    first
      | exact Or.inr (parse_reminder_future now r.session rm h2)
      | exact Or.inr (parse_end_reminder_future now r.session er h4)
      | exact ⟨Or.inr (parse_reminder_future now r.session rm h2),
               Or.inr (parse_end_reminder_future now r.session er h4)⟩

/-- Witness for `reconciliation_wall_clock` at a concrete record. -/
theorem reconciliation_wall_clock_witness :
    (({ storedRec with
         reminder_time := some 29355655,
         end_reminder_time := some 29355715 } : Session).reminder_time =
           storedRec.reminder_time ∨
      ∃ v, ({ storedRec with
               reminder_time := some 29355655,
               end_reminder_time := some 29355715 } : Session).reminder_time =
             some v ∧ toMin octNow < v) ∧
    (({ storedRec with
         reminder_time := some 29355655,
         end_reminder_time := some 29355715 } : Session).end_reminder_time =
           storedRec.end_reminder_time ∨
      ∃ v, ({ storedRec with
               reminder_time := some 29355655,
               end_reminder_time := some 29355715 } : Session).end_reminder_time =
             some v ∧ toMin octNow < v) :=
  reconciliation_wall_clock octNow storedRec
    { storedRec with
       reminder_time := some 29355655,
       end_reminder_time := some 29355715 } (by rfl)

/-- **C9**: loading is *not* total — a persisted file whose JSON value is
a bare scalar (e.g. `42`) makes both loaders raise `TypeError`
(`enumerate` over a non-iterable), contradicting their documented
"returns empty list if invalid" behaviour; on array content the loaders do
return the first occurrence of each entry with a non-empty string
`session` key, dropping later duplicates and malformed entries, and
missing or unparseable files load as empty. -/
theorem loader_totality_bug :
    load_scheduled_sessions (.parsed (.num 42)) = .error "TypeError" ∧
    load_past_scheduled_sessions (.parsed (.num 42)) = .error "TypeError" ∧
    load_scheduled_sessions .missing = .ok [] ∧
    load_scheduled_sessions .badJson = .ok [] ∧
    load_past_scheduled_sessions .missing = .ok [] ∧
    load_past_scheduled_sessions .badJson = .ok [] ∧
    load_scheduled_sessions (.parsed (.arr ([goodA, dupA] ++ badEntries ++ [goodB]))) =
      .ok [goodA, goodB] ∧
    load_past_scheduled_sessions (.parsed (.arr ([goodA, dupA] ++ badEntries ++ [goodB]))) =
      .ok [goodA, goodB] :=
  ⟨rfl, rfl, rfl, rfl, rfl, rfl, rfl, rfl⟩

/-! # Lemmas for the lifecycle invariant (C5) -/

theorem dedupGo_keys (l : List Session) : ∀ seen,
    ((dedupGo seen l).map Session.session).Nodup ∧
    ∀ x ∈ (dedupGo seen l).map Session.session, x ∉ seen := by
  induction l with
  | nil => intro seen; simp [dedupGo]
  | cons s rest ih =>
    intro seen
    simp only [dedupGo]
    split_ifs with hs
    · exact ih seen
    · have h2 := ih (s.session :: seen)
      constructor
      · simp only [List.map_cons, List.nodup_cons]
        refine ⟨fun hmem => ?_, h2.1⟩
        exact (h2.2 _ hmem) (List.mem_cons_self _ _)
      · intro x hx
        simp only [List.map_cons, List.mem_cons] at hx
        rcases hx with rfl | hx
        · exact hs
        · intro hxs
          exact (h2.2 _ hx) (List.mem_cons_of_mem _ hxs)

theorem dedupSessions_keys (l : List Session) :
    ((dedupSessions l).map Session.session).Nodup :=
  (dedupGo_keys l []).1

theorem dedupGo_id (l : List Session) : ∀ seen,
    (l.map Session.session).Nodup → (∀ r ∈ l, r.session ∉ seen) →
    dedupGo seen l = l := by
  induction l with
  | nil => intro seen _ _; rfl
  | cons s rest ih =>
    intro seen hnd hseen
    simp only [List.map_cons, List.nodup_cons] at hnd
    simp only [dedupGo]
    rw [if_neg (hseen s (List.mem_cons_self _ _))]
    congr 1
    apply ih _ hnd.2
    intro r hr
    simp only [List.mem_cons, not_or]
    exact ⟨fun he => hnd.1 (he ▸ List.mem_map_of_mem Session.session hr),
           hseen r (List.mem_cons_of_mem _ hr)⟩

theorem dedupSessions_id (l : List Session)
    (h : (l.map Session.session).Nodup) : dedupSessions l = l :=
  dedupGo_id l [] h (by simp)

theorem dedupGo_filter_in (l : List Session) : ∀ seen x, x ∈ seen →
    (dedupGo seen l).filter (fun r => r.session = x) = [] := by
  induction l with
  | nil => intro seen x _; rfl
  | cons s rest ih =>
    intro seen x hx
    simp only [dedupGo]
    split_ifs with hs
    · exact ih seen x hx
    · have hne : ¬ s.session = x := fun he => hs (he ▸ hx)
      rw [List.filter_cons_of_neg (by simp [hne])]
      exact ih _ x (List.mem_cons_of_mem _ hx)

theorem dedupGo_filter (l : List Session) : ∀ seen x, x ∉ seen →
    (dedupGo seen l).filter (fun r => r.session = x) =
      (l.filter (fun r => r.session = x)).take 1 := by
  induction l with
  | nil => intro seen x _; rfl
  | cons s rest ih =>
    intro seen x hx
    simp only [dedupGo]
    split_ifs with hs
    · have hne : ¬ s.session = x := fun he => hx (he ▸ hs)
      rw [List.filter_cons_of_neg (by simp [hne])]
      exact ih seen x hx
    · by_cases he : s.session = x
      · rw [List.filter_cons_of_pos (by simp [he]),
            List.filter_cons_of_pos (by simp [he])]
        rw [dedupGo_filter_in rest _ x (by rw [← he]; exact List.mem_cons_self _ _)]
        simp
      · rw [List.filter_cons_of_neg (by simp [he]),
            List.filter_cons_of_neg (by simp [he])]
        exact ih _ x (by
          simp only [List.mem_cons, not_or]
          exact ⟨fun h => he h.symm, hx⟩)

theorem mem_map_session {l : List Session} {x : String} :
    x ∈ l.map Session.session ↔ l.filter (fun r => r.session = x) ≠ [] := by
  rw [Ne, List.filter_eq_nil_iff]
  simp only [List.mem_map, decide_eq_true_eq, not_forall]
  constructor
  · rintro ⟨r, hr, rfl⟩; exact ⟨r, hr, by simp⟩
  · rintro ⟨r, hr, hp⟩
    simp only [not_not] at hp
    exact ⟨r, hr, hp⟩

theorem notifierLoop_eq (now : Int) (l : List Session) :
    notifierLoop now l =
      ((l.filter (fun s => ¬ s.end_time ≤ now)).map (fun s => (processOneSession now s).1),
       (l.filter (fun s => s.end_time ≤ now)).map (fun s => (processOneSession now s).1),
       l.flatMap (fun s => (processOneSession now s).2.1)) := by
  induction l with
  | nil => rfl
  | cons s rest ih =>
    simp only [notifierLoop, ih, processOne_arch, List.filter_cons, List.flatMap_cons]
    by_cases he : s.end_time ≤ now
    · simp [he]
    · simp [he]

theorem tagCount_append (t : NotifTag) (x : String) (a b : List Notif) :
    tagCount t x (a ++ b) = tagCount t x a + tagCount t x b := by
  simp [tagCount, List.filter_append]

theorem tagCount_bind (t : NotifTag) (x : String) (f : Session → List Notif) :
    ∀ l : List Session,
      tagCount t x (l.flatMap f) = (l.map fun s => tagCount t x (f s)).sum := by
  intro l
  induction l with
  | nil => rfl
  | cons s rest ih => simp [List.flatMap_cons, tagCount_append, ih]

theorem filter_map_pres (now : Int) (x : String) (l : List Session) :
    (l.map (fun s => (processOneSession now s).1)).filter (fun r => r.session = x) =
      (l.filter (fun r => r.session = x)).map (fun s => (processOneSession now s).1) := by
  induction l with
  | nil => rfl
  | cons s rest ih =>
    simp only [List.map_cons, List.filter_cons, (processOne_fields now s).1]
    by_cases he : s.session = x
    · simp [he, ih]
    · simp [he, ih]

theorem filter_swap {α : Type} (p q : α → Bool) (l : List α) :
    (l.filter p).filter q = (l.filter q).filter p := by
  induction l with
  | nil => rfl
  | cons a rest ih =>
    by_cases hp : p a <;> by_cases hq : q a <;>
      simp [List.filter_cons, hp, hq, ih]

theorem sum_zero_of_filter_nil (x : String) (g : Session → Nat)
    (hg : ∀ s : Session, ¬ s.session = x → g s = 0) :
    ∀ l : List Session, l.filter (fun q => q.session = x) = [] →
      (l.map g).sum = 0 := by
  intro l
  induction l with
  | nil => intro _; rfl
  | cons s rest ih =>
    intro h
    by_cases he : s.session = x
    · rw [List.filter_cons_of_pos (by simp [he])] at h
      cases h
    · rw [List.filter_cons_of_neg (by simp [he])] at h
      simp [hg s he, ih h]

theorem sum_single_of_filter (x : String) (g : Session → Nat)
    (hg : ∀ s : Session, ¬ s.session = x → g s = 0) :
    ∀ (l : List Session) (r : Session),
      l.filter (fun q => q.session = x) = [r] → (l.map g).sum = g r := by
  intro l
  induction l with
  | nil => intro r h; cases h
  | cons s rest ih =>
    intro r h
    by_cases he : s.session = x
    · rw [List.filter_cons_of_pos (by simp [he])] at h
      injection h with h1 h2
      subst h1
      simp [sum_zero_of_filter_nil x g hg rest h2]
    · rw [List.filter_cons_of_neg (by simp [he])] at h
      simp [hg s he, ih r h]

/-- The announced-stage count of one record's tick output, as a function
used in the summation lemmas. -/
theorem processOne_ann_ne (now : Int) (x : String) (s : Session)
    (h : ¬ s.session = x) :
    tagCount .announced x (processOneSession now s).2.1 = 0 := by
  rw [processOne_ann]
  simp [h]

/-- The notifier phase of a tick, for a session string with exactly one
active record `r` and no archived record: the announced count for it is 1
exactly when `r` is un-notified with a future start, and `r` (updated)
lands in past when ended, in the active list otherwise. -/
theorem notify_phase_rec (now : Int) (x : String) (sched past : List Session)
    (r : Session)
    (hs : sched.filter (fun q => q.session = x) = [r])
    (hp : past.filter (fun q => q.session = x) = []) :
    tagCount .announced x (check_and_send_notifications now sched past).2.2 =
      (if r.notified = false ∧ now < r.start_time then 1 else 0) ∧
    (check_and_send_notifications now sched past).1.filter (fun q => q.session = x) =
      (if r.end_time ≤ now then [] else [(processOneSession now r).1]) ∧
    (check_and_send_notifications now sched past).2.1.filter (fun q => q.session = x) =
      (if r.end_time ≤ now then [(processOneSession now r).1] else []) := by
  have hSf : (dedupSessions sched).filter (fun q => q.session = x) = [r] := by
    rw [dedupSessions, dedupGo_filter sched [] x (by simp), hs]
    rfl
  have hPf : (dedupSessions past).filter (fun q => q.session = x) = [] := by
    rw [dedupSessions, dedupGo_filter past [] x (by simp), hp]
    rfl
  simp only [check_and_send_notifications, notifierLoop_eq]
  refine ⟨?_, ?_, ?_⟩
  · rw [tagCount_bind]
    rw [sum_single_of_filter x _ (processOne_ann_ne now x) _ r hSf]
    rw [processOne_ann]
    by_cases hcond : r.notified = false ∧ now < r.start_time
    · have hrx : r.session = x := by
        have := List.mem_filter.mp (hSf ▸ List.mem_singleton_self r)
        simpa using this.2
      simp [hrx, hcond]
    · rw [if_neg (fun h2 => hcond ⟨h2.2.1, h2.2.2⟩), if_neg hcond]
  · rw [filter_map_pres, filter_swap, hSf]
    by_cases he : r.end_time ≤ now
    · rw [List.filter_cons_of_neg (by simp [he])]
      simp [he]
    · rw [List.filter_cons_of_pos (by simp [he])]
      simp [he]
  · rw [List.filter_append, hPf, List.nil_append, filter_map_pres, filter_swap, hSf]
    by_cases he : r.end_time ≤ now
    · rw [List.filter_cons_of_pos (by simp [he])]
      simp [he]
    · rw [List.filter_cons_of_neg (by simp [he])]
      simp [he]

/-- The notifier phase when the session string has no record at all. -/
theorem notify_phase_none (now : Int) (x : String) (sched past : List Session)
    (hs : sched.filter (fun q => q.session = x) = [])
    (hp : past.filter (fun q => q.session = x) = []) :
    tagCount .announced x (check_and_send_notifications now sched past).2.2 = 0 ∧
    (check_and_send_notifications now sched past).1.filter (fun q => q.session = x) = [] ∧
    (check_and_send_notifications now sched past).2.1.filter (fun q => q.session = x) = [] := by
  have hSf : (dedupSessions sched).filter (fun q => q.session = x) = [] := by
    rw [dedupSessions, dedupGo_filter sched [] x (by simp), hs]
    rfl
  have hPf : (dedupSessions past).filter (fun q => q.session = x) = [] := by
    rw [dedupSessions, dedupGo_filter past [] x (by simp), hp]
    rfl
  simp only [check_and_send_notifications, notifierLoop_eq]
  refine ⟨?_, ?_, ?_⟩
  · rw [tagCount_bind]
    exact sum_zero_of_filter_nil x _ (processOne_ann_ne now x) _ hSf
  · rw [filter_map_pres, filter_swap, hSf]
    rfl
  · rw [List.filter_append, hPf, List.nil_append, filter_map_pres, filter_swap, hSf]
    rfl

/-- Strings already tracked (in either collection) are skipped by the
creation loop: no record is added, no notification sent. -/
theorem processSessions_skip (now : PyDateTime) (isNext : Bool)
    (pastStrs : List String) :
    ∀ (toProc : List String) (sched : List Session),
      (∀ s ∈ toProc, s ∈ sched.map Session.session ∨ s ∈ pastStrs) →
      processSessions now isNext pastStrs toProc sched = .ok (sched, []) := by
  intro toProc
  induction toProc with
  | nil => intro sched _; rfl
  | cons s rest ih =>
    intro sched h
    have hs := h s (List.mem_cons_self _ _)
    simp only [processSessions]
    rcases hs with hs | hs
    · rw [if_pos hs]
      exact ih sched (fun q hq => h q (List.mem_cons_of_mem _ hq))
    · by_cases ht : s ∈ sched.map Session.session
      · rw [if_pos ht]
        exact ih sched (fun q hq => h q (List.mem_cons_of_mem _ hq))
      · rw [if_neg ht, if_pos hs]
        exact ih sched (fun q hq => h q (List.mem_cons_of_mem _ hq))

theorem pyDedup_single (x : String) : pyDedup [x] = [x] := by
  simp [pyDedup, pyDedup.go]

/-- When the only observed string `x` is already tracked in either
collection, the creation loop adds nothing and the tick reduces to the
notifier phase. -/
theorem mainTick_skip (i : TickInput) (st : St) (st' : St) (ns : List Notif)
    (x : String) (hc : i.current = [x])
    (hxt : x ∈ (dedupSessions st.scheduled).map Session.session ∨
           x ∈ (dedupSessions st.past).map Session.session)
    (h : mainTick i st = .ok (st', ns)) :
    st' = ⟨(check_and_send_notifications (toMin i.now) (dedupSessions st.scheduled)
              (dedupSessions st.past)).1,
           (check_and_send_notifications (toMin i.now) (dedupSessions st.scheduled)
              (dedupSessions st.past)).2.1,
           i.current⟩ ∧
    ns = (check_and_send_notifications (toMin i.now) (dedupSessions st.scheduled)
            (dedupSessions st.past)).2.2 := by
  simp only [mainTick] at h
  rw [if_neg (by simp [hc])] at h
  split at h
  · have hforall : ∀ s ∈ (pyDedup i.current).filter (fun s => s ∉ st.lastExtracted),
        s ∈ (dedupSessions st.scheduled).map Session.session ∨
        s ∈ (dedupSessions st.past).map Session.session := by
      intro s hsm
      have h1 : s ∈ pyDedup i.current := (List.mem_filter.mp hsm).1
      rw [hc, pyDedup_single] at h1
      have hsx : s = x := by simpa using h1
      subst hsx
      exact hxt
    rw [processSessions_skip _ _ _ _ _ hforall] at h
    simp only [pyBind_ok, List.nil_append] at h
    rw [Except.ok.injEq, Prod.mk.injEq] at h
    exact ⟨h.1.symm, h.2.symm⟩
  · have hforall : ∀ s ∈ i.current.filter
        (fun s => s ∉ (dedupSessions st.scheduled).map Session.session ∧
                  s ∉ (dedupSessions st.past).map Session.session),
        s ∈ (dedupSessions st.scheduled).map Session.session ∨
        s ∈ (dedupSessions st.past).map Session.session := by
      intro s hsm
      have h1 : s ∈ i.current := (List.mem_filter.mp hsm).1
      rw [hc] at h1
      have hsx : s = x := by simpa using h1
      subst hsx
      have hcond := (List.mem_filter.mp hsm).2
      simp only [decide_eq_true_eq] at hcond
      exact absurd hxt (by simp [hcond.1, hcond.2])
    rw [processSessions_skip _ _ _ _ _ hforall] at h
    simp only [pyBind_ok, List.nil_append] at h
    rw [Except.ok.injEq, Prod.mk.injEq] at h
    exact ⟨h.1.symm, h.2.symm⟩

/-- A tick observing only `x` while `x` has exactly one record, active:
the announced notification for `x` is sent exactly when the record is
un-notified with a future start, and the record moves to past exactly when
its end has passed. -/
theorem tick_rec_active (i : TickInput) (st : St) (x : String) (r : Session)
    (st' : St) (ns : List Notif)
    (hc : i.current = [x])
    (hs : schedFor st x = [r]) (hp : pastFor st x = [])
    (h : mainTick i st = .ok (st', ns)) :
    tagCount .announced x ns =
      (if r.notified = false ∧ toMin i.now < r.start_time then 1 else 0) ∧
    (if r.end_time ≤ toMin i.now then
       schedFor st' x = [] ∧
       pastFor st' x = [(processOneSession (toMin i.now) r).1]
     else
       schedFor st' x = [(processOneSession (toMin i.now) r).1] ∧
       pastFor st' x = []) := by
  rw [schedFor] at hs
  rw [pastFor] at hp
  have hSf : (dedupSessions st.scheduled).filter (fun q => q.session = x) = [r] := by
    rw [dedupSessions, dedupGo_filter _ [] x (by simp), hs]
    rfl
  have hPf : (dedupSessions st.past).filter (fun q => q.session = x) = [] := by
    rw [dedupSessions, dedupGo_filter _ [] x (by simp), hp]
    rfl
  have hxt : x ∈ (dedupSessions st.scheduled).map Session.session :=
    mem_map_session.mpr (by rw [hSf]; simp)
  have hph := notify_phase_rec (toMin i.now) x (dedupSessions st.scheduled)
    (dedupSessions st.past) r hSf hPf
  obtain ⟨hst, hns⟩ := mainTick_skip i st st' ns x hc (Or.inl hxt) h
  subst hst
  subst hns
  refine ⟨hph.1, ?_⟩
  by_cases he : r.end_time ≤ toMin i.now
  · rw [if_pos he]
    exact ⟨by have := hph.2.1; rwa [if_pos he] at this,
           by have := hph.2.2; rwa [if_pos he] at this⟩
  · rw [if_neg he]
    exact ⟨by have := hph.2.1; rwa [if_neg he] at this,
           by have := hph.2.2; rwa [if_neg he] at this⟩

/-- The notifier phase when the string's only record is archived. -/
theorem notify_phase_past (now : Int) (x : String) (sched past : List Session)
    (r : Session)
    (hs : sched.filter (fun q => q.session = x) = [])
    (hp : past.filter (fun q => q.session = x) = [r]) :
    tagCount .announced x (check_and_send_notifications now sched past).2.2 = 0 ∧
    (check_and_send_notifications now sched past).1.filter (fun q => q.session = x) = [] ∧
    (check_and_send_notifications now sched past).2.1.filter (fun q => q.session = x) = [r] := by
  have hSf : (dedupSessions sched).filter (fun q => q.session = x) = [] := by
    rw [dedupSessions, dedupGo_filter sched [] x (by simp), hs]
    rfl
  have hPf : (dedupSessions past).filter (fun q => q.session = x) = [r] := by
    rw [dedupSessions, dedupGo_filter past [] x (by simp), hp]
    rfl
  simp only [check_and_send_notifications, notifierLoop_eq]
  refine ⟨?_, ?_, ?_⟩
  · rw [tagCount_bind]
    exact sum_zero_of_filter_nil x _ (processOne_ann_ne now x) _ hSf
  · rw [filter_map_pres, filter_swap, hSf]
    rfl
  · rw [List.filter_append, hPf, filter_map_pres, filter_swap, hSf]
    simp
/-- A tick observing only `x` while `x`'s only record is archived: nothing
is announced and the record stays archived, untouched. -/
theorem tick_rec_past (i : TickInput) (st : St) (x : String) (r : Session)
    (st' : St) (ns : List Notif)
    (hc : i.current = [x])
    (hs : schedFor st x = []) (hp : pastFor st x = [r])
    (h : mainTick i st = .ok (st', ns)) :
    tagCount .announced x ns = 0 ∧ schedFor st' x = [] ∧ pastFor st' x = [r] := by
  rw [schedFor] at hs
  rw [pastFor] at hp
  have hSf : (dedupSessions st.scheduled).filter (fun q => q.session = x) = [] := by
    rw [dedupSessions, dedupGo_filter _ [] x (by simp), hs]
    rfl
  have hPf : (dedupSessions st.past).filter (fun q => q.session = x) = [r] := by
    rw [dedupSessions, dedupGo_filter _ [] x (by simp), hp]
    rfl
  have hxp : x ∈ (dedupSessions st.past).map Session.session :=
    mem_map_session.mpr (by rw [hPf]; simp)
  have hph := notify_phase_past (toMin i.now) x (dedupSessions st.scheduled)
    (dedupSessions st.past) r hSf hPf
  obtain ⟨hst, hns⟩ := mainTick_skip i st st' ns x hc (Or.inr hxp) h
  subst hst
  subst hns
  exact ⟨hph.1, hph.2.1, hph.2.2⟩

/-- Creating one fresh string appends one record (announced at creation
exactly when the extraction type is `next`). -/
theorem processSessions_create (now : PyDateTime) (isNext : Bool)
    (pastStrs : List String) (sched : List Session) (x : String) (r : Session)
    (hx1 : x ∉ sched.map Session.session) (hx2 : x ∉ pastStrs)
    (hcr : createSessionData now x = .ok (some r)) :
    processSessions now isNext pastStrs [x] sched =
      .ok (sched ++ [if isNext then { r with notified := true } else r],
           if isNext then [⟨.announced, x⟩] else []) := by
  simp only [processSessions]
  rw [if_neg hx1, if_neg hx2, hcr]
  simp only [pyBind_ok]
  by_cases hn : isNext <;> simp [hn, processSessions]

/-- The post-creation notifier phase for the fresh record `r'` of `x`:
either `x` is still awaiting announcement with nothing sent, or the
announcement stage is closed with (counting a creation-time announcement
separately) at most one announcement from this phase. -/
theorem create_phase (now : Int) (x : String) (S P : List Session) (r' : Session)
    (hSf : (S ++ [r']).filter (fun q => q.session = x) = [r'])
    (hPf : P.filter (fun q => q.session = x) = [])
    (hse : r'.start_time ≤ r'.end_time) :
    ((∃ rr, (check_and_send_notifications now (S ++ [r']) P).1.filter
        (fun q => q.session = x) = [rr] ∧ rr.notified = false) ∧
     (check_and_send_notifications now (S ++ [r']) P).2.1.filter
        (fun q => q.session = x) = [] ∧
     r'.notified = false ∧
     tagCount .announced x (check_and_send_notifications now (S ++ [r']) P).2.2 = 0) ∨
    (((∃ rr, (check_and_send_notifications now (S ++ [r']) P).1.filter
         (fun q => q.session = x) = [rr] ∧ rr.notified = true) ∧
      (check_and_send_notifications now (S ++ [r']) P).2.1.filter
         (fun q => q.session = x) = [] ∨
      ((check_and_send_notifications now (S ++ [r']) P).1.filter
         (fun q => q.session = x) = [] ∧
       ∃ rr, (check_and_send_notifications now (S ++ [r']) P).2.1.filter
         (fun q => q.session = x) = [rr])) ∧
     tagCount .announced x (check_and_send_notifications now (S ++ [r']) P).2.2 ≤ 1) := by
  have hph := notify_phase_rec now x (S ++ [r']) P r' hSf hPf
  by_cases hn : r'.notified = true
  · -- already announced at creation: the phase announces nothing
    right
    have hcnt : tagCount .announced x (check_and_send_notifications now (S ++ [r']) P).2.2 = 0 := by
      rw [hph.1, if_neg]
      intro hcontra
      rw [hn] at hcontra
      cases hcontra.1
    refine ⟨?_, by rw [hcnt]; omega⟩
    by_cases he : r'.end_time ≤ now
    · exact Or.inr ⟨by have := hph.2.1; rwa [if_pos he] at this,
        (processOneSession now r').1,
        by have := hph.2.2; rwa [if_pos he] at this⟩
    · refine Or.inl ⟨⟨(processOneSession now r').1,
        by have := hph.2.1; rwa [if_neg he] at this, ?_⟩,
        by have := hph.2.2; rwa [if_neg he] at this⟩
      rw [processOne_notified, hn]
      rfl
  · have hnf : r'.notified = false := by
      cases hv : r'.notified
      · rfl
      · exact absurd hv hn
    by_cases hstart : now < r'.start_time
    · -- announce fires in this phase; the record cannot have ended
      right
      have he : ¬ r'.end_time ≤ now := by omega
      refine ⟨Or.inl ⟨⟨(processOneSession now r').1,
          by have := hph.2.1; rwa [if_neg he] at this, ?_⟩,
          by have := hph.2.2; rwa [if_neg he] at this⟩, ?_⟩
      · rw [processOne_notified, hnf]
        simp [hstart]
      · rw [hph.1]
        split_ifs <;> omega
    · have hcnt : tagCount .announced x (check_and_send_notifications now (S ++ [r']) P).2.2 = 0 := by
        rw [hph.1, if_neg]
        intro hcontra
        exact hstart hcontra.2
      by_cases he : r'.end_time ≤ now
      · -- ended before ever being announced: archived, nothing sent
        right
        refine ⟨Or.inr ⟨by have := hph.2.1; rwa [if_pos he] at this,
            (processOneSession now r').1,
            by have := hph.2.2; rwa [if_pos he] at this⟩, by rw [hcnt]; omega⟩
      · left
        refine ⟨⟨(processOneSession now r').1,
            by have := hph.2.1; rwa [if_neg he] at this, ?_⟩,
            by have := hph.2.2; rwa [if_neg he] at this, hnf, hcnt⟩
        rw [processOne_notified, hnf]
        simp [hstart]

/-- A tick observing the fresh, resolvable string `x`: exactly one record
is created, and afterwards either `x` is still awaiting its announcement
with nothing sent ("Q"), or the announcement stage is closed with at most
one announcement sent ("P"). -/
theorem tick_create (i : TickInput) (st : St) (x : String) (r : Session)
    (st' : St) (ns : List Notif)
    (hc : i.current = [x])
    (hs : schedFor st x = []) (hp : pastFor st x = [])
    (hcr : createSessionData i.now x = .ok (some r))
    (h : mainTick i st = .ok (st', ns)) :
    (QState st' x ∧ tagCount .announced x ns = 0) ∨
    (PState st' x ∧ tagCount .announced x ns ≤ 1) := by
  obtain ⟨hrx, hrn, _, _, hdur⟩ := createSessionData_spec i.now x r hcr
  rw [schedFor] at hs
  rw [pastFor] at hp
  have hSf : (dedupSessions st.scheduled).filter (fun q => q.session = x) = [] := by
    rw [dedupSessions, dedupGo_filter _ [] x (by simp), hs]
    rfl
  have hPf : (dedupSessions st.past).filter (fun q => q.session = x) = [] := by
    rw [dedupSessions, dedupGo_filter _ [] x (by simp), hp]
    rfl
  have hxt : x ∉ (dedupSessions st.scheduled).map Session.session := by
    rw [mem_map_session]
    simp [hSf]
  have hxp : x ∉ (dedupSessions st.past).map Session.session := by
    rw [mem_map_session]
    simp [hPf]
  set r' : Session := if i.isNext then { r with notified := true } else r with hr'
  have hr'x : r'.session = x := by
    rw [hr']
    by_cases hn : i.isNext <;> simp [hn, hrx]
  have hr'se : r'.start_time ≤ r'.end_time := by
    rw [hr']
    by_cases hn : i.isNext <;> simp [hn, hdur]
  have hr'n : r'.notified = true ↔ i.isNext = true := by
    rw [hr']
    by_cases hn : i.isNext <;> simp [hn, hrn]
  have hSf' : (dedupSessions st.scheduled ++ [r']).filter (fun q => q.session = x) = [r'] := by
    rw [List.filter_append, hSf, List.nil_append,
        List.filter_cons_of_pos (by simp [hr'x])]
    rfl
  have hcreNotif : tagCount .announced x (if i.isNext then [⟨.announced, x⟩] else []) =
      (if i.isNext then 1 else 0) := by
    by_cases hn : i.isNext <;> simp [hn, tagCount]
  -- reduce the tick to creation followed by the notifier phase
  simp only [mainTick] at h
  rw [if_neg (by simp [hc])] at h
  have hfin : st' = ⟨(check_and_send_notifications (toMin i.now)
        (dedupSessions st.scheduled ++ [r']) (dedupSessions st.past)).1,
      (check_and_send_notifications (toMin i.now)
        (dedupSessions st.scheduled ++ [r']) (dedupSessions st.past)).2.1,
      i.current⟩ ∧
      ns = (if i.isNext then [⟨.announced, x⟩] else []) ++
        (check_and_send_notifications (toMin i.now)
          (dedupSessions st.scheduled ++ [r']) (dedupSessions st.past)).2.2 := by
    split at h
    case isTrue hne =>
      have htp : (pyDedup i.current).filter (fun s => s ∉ st.lastExtracted) = [x] := by
        rw [hc, pyDedup_single] at hne ⊢
        by_cases hin : x ∈ st.lastExtracted
        · exact absurd (by simp [List.filter_cons, hin]) hne
        · simp [List.filter_cons, hin]
      rw [htp, processSessions_create i.now i.isNext _ _ x r hxt hxp hcr] at h
      simp only [pyBind_ok] at h
      rw [Except.ok.injEq, Prod.mk.injEq] at h
      exact ⟨h.1.symm, h.2.symm⟩
    case isFalse hne =>
      have htp : i.current.filter
          (fun s => s ∉ (dedupSessions st.scheduled).map Session.session ∧
                    s ∉ (dedupSessions st.past).map Session.session) = [x] := by
        rw [hc]
        simp only [List.filter_cons, List.filter_nil, decide_eq_true_eq]
        rw [if_pos]
        exact ⟨hxt, hxp⟩
      rw [htp, processSessions_create i.now i.isNext _ _ x r hxt hxp hcr] at h
      simp only [pyBind_ok] at h
      rw [Except.ok.injEq, Prod.mk.injEq] at h
      exact ⟨h.1.symm, h.2.symm⟩
  obtain ⟨hst, hns⟩ := hfin
  subst hst
  subst hns
  rw [tagCount_append, hcreNotif]
  rcases create_phase (toMin i.now) x (dedupSessions st.scheduled)
      (dedupSessions st.past) r' hSf' hPf hr'se with
    ⟨hQs, hQp, hQn, hQc⟩ | ⟨hPloc, hPc⟩
  · -- phase left the record un-notified: creation cannot have announced
    left
    have hnn : i.isNext = false := by
      cases hv : i.isNext
      · rfl
      · exact absurd (hr'n.mpr hv) (by rw [hQn]; simp)
    refine ⟨⟨hQs, hQp⟩, ?_⟩
    rw [hnn, hQc]
    rfl
  · right
    refine ⟨hPloc, ?_⟩
    by_cases hn : i.isNext
    · -- creation announced, so the record entered the phase notified
      have hcnt0 : tagCount .announced x (check_and_send_notifications (toMin i.now)
          (dedupSessions st.scheduled ++ [r']) (dedupSessions st.past)).2.2 = 0 := by
        have hph := notify_phase_rec (toMin i.now) x
          (dedupSessions st.scheduled ++ [r']) (dedupSessions st.past) r' hSf' hPf
        rw [hph.1, if_neg]
        intro hcontra
        rw [hr'n.mpr (by rw [hn])] at hcontra
        cases hcontra.1
      rw [hcnt0]
      simp [hn]
    · simp only [hn, if_neg]
      simp only [Bool.false_eq_true, if_false, Nat.zero_add]
      exact hPc

theorem tick_from_Q (i : TickInput) (st st' : St) (x : String) (ns : List Notif)
    (hc : i.current = [x]) (hQ : QState st x)
    (h : mainTick i st = .ok (st', ns)) :
    (QState st' x ∧ tagCount .announced x ns = 0) ∨
    (PState st' x ∧ tagCount .announced x ns ≤ 1) := by
  obtain ⟨⟨r, hs, hnf⟩, hp⟩ := hQ
  obtain ⟨hcount, hloc⟩ := tick_rec_active i st x r st' ns hc hs hp h
  by_cases he : r.end_time ≤ toMin i.now
  · rw [if_pos he] at hloc
    right
    refine ⟨Or.inr ⟨hloc.1, _, hloc.2⟩, ?_⟩
    rw [hcount]
    split_ifs <;> omega
  · rw [if_neg he] at hloc
    by_cases hstart : toMin i.now < r.start_time
    · right
      refine ⟨Or.inl ⟨⟨_, hloc.1, ?_⟩, hloc.2⟩,
        by rw [hcount]; split_ifs <;> omega⟩
      rw [processOne_notified, hnf]
      simp [hstart]
    · left
      refine ⟨⟨⟨_, hloc.1, ?_⟩, hloc.2⟩, by rw [hcount]; simp [hstart]⟩
      rw [processOne_notified, hnf]
      simp [hstart]

theorem tick_from_P (i : TickInput) (st st' : St) (x : String) (ns : List Notif)
    (hc : i.current = [x]) (hP : PState st x)
    (h : mainTick i st = .ok (st', ns)) :
    PState st' x ∧ tagCount .announced x ns = 0 := by
  rcases hP with ⟨⟨r, hs, hnt⟩, hp⟩ | ⟨hs, r, hp⟩
  · obtain ⟨hcount, hloc⟩ := tick_rec_active i st x r st' ns hc hs hp h
    have hcnt0 : tagCount .announced x ns = 0 := by
      rw [hcount, if_neg]
      intro hco
      rw [hnt] at hco
      cases hco.1
    by_cases he : r.end_time ≤ toMin i.now
    · rw [if_pos he] at hloc
      exact ⟨Or.inr ⟨hloc.1, _, hloc.2⟩, hcnt0⟩
    · rw [if_neg he] at hloc
      refine ⟨Or.inl ⟨⟨_, hloc.1, ?_⟩, hloc.2⟩, hcnt0⟩
      rw [processOne_notified, hnt]
      rfl
  · obtain ⟨hc0, hs', hp'⟩ := tick_rec_past i st x r st' ns hc hs hp h
    exact ⟨Or.inr ⟨hs', r, hp'⟩, hc0⟩

theorem ticks_QP (x : String) : ∀ (inputs : List TickInput) (st st' : St) (ns : List Notif),
    (∀ i ∈ inputs, i.current = [x]) →
    ticksFrom st inputs = .ok (st', ns) →
    ((QState st x ∨ PState st x) → (QState st' x ∨ PState st' x)) ∧
    (QState st x → tagCount .announced x ns ≤ 1) ∧
    (PState st x → tagCount .announced x ns = 0) := by
  intro inputs
  induction inputs with
  | nil =>
    intro st st' ns _ h
    simp only [ticksFrom] at h
    rw [Except.ok.injEq, Prod.mk.injEq] at h
    obtain ⟨h1, h2⟩ := h
    subst h1
    subst h2
    exact ⟨id, fun _ => by simp [tagCount], fun _ => by simp [tagCount]⟩
  | cons i rest ih =>
    intro st st' ns hcur h
    simp only [ticksFrom] at h
    rcases h1 : mainTick i st with e | p <;> rw [h1] at h
    · exact Except.noConfusion (pyBind_err e _ ▸ h)
    rw [pyBind_ok] at h
    rcases h2 : ticksFrom p.1 rest with e | q <;> rw [h2] at h
    · exact Except.noConfusion (pyBind_err e _ ▸ h)
    rw [pyBind_ok] at h
    rw [Except.ok.injEq, Prod.mk.injEq] at h
    obtain ⟨hq1, hq2⟩ := h
    subst hq1
    subst hq2
    have hci : i.current = [x] := hcur i (List.mem_cons_self _ _)
    have hcr : ∀ j ∈ rest, j.current = [x] := fun j hj => hcur j (List.mem_cons_of_mem _ hj)
    have ihr := ih p.1 q.1 q.2 hcr h2
    rw [tagCount_append]
    refine ⟨?_, ?_, ?_⟩
    · rintro (hQ | hP)
      · rcases tick_from_Q i st p.1 x p.2 hci hQ (by rw [h1]) with ⟨hQ1, _⟩ | ⟨hP1, _⟩
        · exact ihr.1 (Or.inl hQ1)
        · exact ihr.1 (Or.inr hP1)
      · exact ihr.1 (Or.inr (tick_from_P i st p.1 x p.2 hci hP (by rw [h1])).1)
    · intro hQ
      rcases tick_from_Q i st p.1 x p.2 hci hQ (by rw [h1]) with ⟨hQ1, hc1⟩ | ⟨hP1, hc1⟩
      · have := ihr.2.1 hQ1
        omega
      · have := ihr.2.2 hP1
        omega
    · intro hP
      obtain ⟨hP1, hc1⟩ := tick_from_P i st p.1 x p.2 hci hP (by rw [h1])
      have := ihr.2.2 hP1
      omega

theorem QP_count (st : St) (x : String) (h : QState st x ∨ PState st x) :
    (schedFor st x).length + (pastFor st x).length = 1 := by
  rcases h with ⟨⟨r, hs, _⟩, hp⟩ | ⟨⟨r, hs, _⟩, hp⟩ | ⟨hs, r, hp⟩ <;>
    rw [hs, hp] <;> rfl

theorem pyBind_ok_inv {α β : Type} (m : Except PyErr α) (f : α → Except PyErr β)
    (b : β) (h : (m >>= f) = .ok b) : ∃ a, m = .ok a ∧ f a = .ok b := by
  cases m with
  | error e => exact Except.noConfusion (pyBind_err e f ▸ h)
  | ok a => exact ⟨a, rfl, pyBind_ok a f ▸ h⟩

theorem nodup_insert_middle (A B : List String) (s : String)
    (h : (A ++ B).Nodup) (h1 : s ∉ A) (h2 : s ∉ B) :
    (A ++ [s] ++ B).Nodup := by
  have hp : List.Perm (s :: (A ++ B)) (A ++ [s] ++ B) := by
    rw [List.append_assoc, List.singleton_append]
    exact List.perm_middle.symm
  exact hp.nodup (List.nodup_cons.mpr ⟨by simp [h1, h2], h⟩)

theorem processSessions_nodup (now : PyDateTime) (isNext : Bool)
    (pastStrs : List String) :
    ∀ (toProc : List String) (sched sched' : List Session) (notifs : List Notif),
      processSessions now isNext pastStrs toProc sched = .ok (sched', notifs) →
      (sched.map Session.session ++ pastStrs).Nodup →
      (sched'.map Session.session ++ pastStrs).Nodup := by
  intro toProc
  induction toProc with
  | nil =>
    intro sched sched' notifs h hnd
    simp only [processSessions] at h
    rw [Except.ok.injEq, Prod.mk.injEq] at h
    rw [← h.1]
    exact hnd
  | cons s rest ih =>
    intro sched sched' notifs h hnd
    simp only [processSessions] at h
    by_cases h1 : s ∈ sched.map Session.session
    · rw [if_pos h1] at h
      exact ih sched sched' notifs h hnd
    rw [if_neg h1] at h
    by_cases h2 : s ∈ pastStrs
    · rw [if_pos h2] at h
      exact ih sched sched' notifs h hnd
    rw [if_neg h2] at h
    rcases h3 : createSessionData now s with e | v <;> rw [h3] at h
    · exact Except.noConfusion (pyBind_err e _ ▸ h)
    rw [pyBind_ok] at h
    rcases v with _ | r
    · exact ih sched sched' notifs h hnd
    · have hrs : r.session = s := (createSessionData_spec now s r h3).1
      cases hn : isNext
      · rw [hn] at h ih
        simp only [Bool.false_eq_true, if_false] at h
        rcases h4 : processSessions now false pastStrs rest (sched ++ [r]) with e | q <;>
          rw [h4] at h
        · exact Except.noConfusion (pyBind_err e _ ▸ h)
        · rw [pyBind_ok] at h
          rw [Except.ok.injEq, Prod.mk.injEq] at h
          rw [← h.1]
          have hext : ((sched ++ [r]).map Session.session ++ pastStrs).Nodup := by
            rw [List.map_append]
            simp only [List.map_cons, List.map_nil, hrs]
            exact nodup_insert_middle _ _ s hnd h1 h2
          exact ih (sched ++ [r]) q.1 q.2 h4 hext
      · rw [hn] at h ih
        simp only [if_true] at h
        rcases h4 : processSessions now true pastStrs rest
            (sched ++ [{ r with notified := true }]) with e | q <;>
          rw [h4] at h
        · exact Except.noConfusion (pyBind_err e _ ▸ h)
        · rw [pyBind_ok] at h
          rw [Except.ok.injEq, Prod.mk.injEq] at h
          rw [← h.1]
          have hext : ((sched ++ [{ r with notified := true }]).map Session.session ++
              pastStrs).Nodup := by
            rw [List.map_append]
            simp only [List.map_cons, List.map_nil, hrs]
            exact nodup_insert_middle _ _ s hnd h1 h2
          exact ih (sched ++ [{ r with notified := true }]) q.1 q.2 h4 hext

theorem notify_nodup (now : Int) (sched past : List Session)
    (h : (sched.map Session.session ++ past.map Session.session).Nodup) :
    ((check_and_send_notifications now sched past).1.map Session.session ++
     (check_and_send_notifications now sched past).2.1.map Session.session).Nodup := by
  have hs : (sched.map Session.session).Nodup := (List.nodup_append.mp h).1
  have hpn : (past.map Session.session).Nodup := (List.nodup_append.mp h).2.1
  have hids : dedupSessions sched = sched := dedupSessions_id sched hs
  have hidp : dedupSessions past = past := dedupSessions_id past hpn
  simp only [check_and_send_notifications, hids, hidp, notifierLoop_eq]
  rw [List.map_append, List.map_map, List.map_map]
  have hkeep : (sched.filter (fun s => ¬ s.end_time ≤ now)).map
      (Session.session ∘ fun s => (processOneSession now s).1) =
      (sched.filter (fun s => ¬ s.end_time ≤ now)).map Session.session :=
    List.map_congr_left (fun a _ => (processOne_fields now a).1)
  have harch : (sched.filter (fun s => s.end_time ≤ now)).map
      (Session.session ∘ fun s => (processOneSession now s).1) =
      (sched.filter (fun s => s.end_time ≤ now)).map Session.session :=
    List.map_congr_left (fun a _ => (processOne_fields now a).1)
  rw [hkeep, harch]
  have hsplit : List.Perm
      ((sched.filter (fun s => ¬ s.end_time ≤ now)).map Session.session ++
       (sched.filter (fun s => s.end_time ≤ now)).map Session.session)
      (sched.map Session.session) := by
    have hf : sched.filter (fun s => ¬ s.end_time ≤ now) =
        sched.filter (fun s => !(decide (s.end_time ≤ now))) := by
      apply List.filter_congr
      intro a _
      rw [decide_not]
    rw [hf, ← List.map_append]
    exact List.Perm.map Session.session
      (List.perm_append_comm.trans (List.filter_append_perm _ sched))
  have hfinal : List.Perm
      (sched.map Session.session ++ past.map Session.session)
      ((sched.filter (fun s => ¬ s.end_time ≤ now)).map Session.session ++
       (past.map Session.session ++
        (sched.filter (fun s => s.end_time ≤ now)).map Session.session)) := by
    refine (hsplit.symm.append_right (past.map Session.session)).trans ?_
    rw [List.append_assoc]
    exact List.Perm.append_left _ List.perm_append_comm
  exact hfinal.nodup h

/-- Every state reachable by the poll loop keeps the session strings of
the active and archived collections jointly duplicate-free. -/
theorem reachable_nodup : ∀ st : St, Reachable st → (stStrings st).Nodup := by
  intro st h
  induction h with
  | init => simp [stStrings]
  | step hreach heq ih =>
    rename_i st0 st' i ns
    simp only [mainTick] at heq
    by_cases hcur : i.current = []
    · rw [if_pos hcur] at heq
      rw [Except.ok.injEq, Prod.mk.injEq] at heq
      rw [← heq.1]
      exact ih
    rw [if_neg (by simpa using hcur)] at heq
    have hnds : (st0.scheduled.map Session.session).Nodup :=
      (List.nodup_append.mp ih).1
    have hndp : (st0.past.map Session.session).Nodup :=
      (List.nodup_append.mp ih).2.1
    have hids : dedupSessions st0.scheduled = st0.scheduled :=
      dedupSessions_id _ hnds
    have hidp : dedupSessions st0.past = st0.past := dedupSessions_id _ hndp
    rw [hids, hidp] at heq
    obtain ⟨p, hp1, hp2⟩ := pyBind_ok_inv _ _ _ heq
    rw [Except.ok.injEq, Prod.mk.injEq] at hp2
    rw [← hp2.1]
    have hnd1 : (p.1.map Session.session ++ st0.past.map Session.session).Nodup :=
      processSessions_nodup i.now i.isNext (st0.past.map Session.session) _
        st0.scheduled p.1 p.2 (by rw [hp1]) ih
    exact notify_nodup (toMin i.now) p.1 st0.past hnd1

/-- **C5** (invariants): (a) at every reachable state a session string has
at most one record across the active and archived collections (their
session strings are jointly duplicate-free); (b) observing the same
resolvable, previously unseen session string on each of N ≥ 1 consecutive
poll ticks creates exactly one record for it and sends at most one
"announced" notification for it across all N ticks. -/
theorem lifecycle_unique :
    (∀ st : St, Reachable st → (stStrings st).Nodup) ∧
    (∀ (st : St) (i0 : TickInput) (rest : List TickInput) (x : String)
       (st' : St) (ns : List Notif) (r : Session),
      Reachable st →
      x ∉ stStrings st →
      i0.current = [x] →
      (∀ i ∈ rest, i.current = [x]) →
      createSessionData i0.now x = .ok (some r) →
      ticksFrom st (i0 :: rest) = .ok (st', ns) →
      (schedFor st' x).length + (pastFor st' x).length = 1 ∧
      tagCount .announced x ns ≤ 1) := by
  refine ⟨reachable_nodup, ?_⟩
  intro st i0 rest x st' ns r _hre habs hc0 hcr hcrd h
  have hxm : x ∉ st.scheduled.map Session.session :=
    fun hm => habs (List.mem_append.mpr (Or.inl hm))
  have hxp : x ∉ st.past.map Session.session :=
    fun hm => habs (List.mem_append.mpr (Or.inr hm))
  have hs0 : schedFor st x = [] := by
    rw [schedFor]
    by_contra hne
    exact hxm (mem_map_session.mpr hne)
  have hp0 : pastFor st x = [] := by
    rw [pastFor]
    by_contra hne
    exact hxp (mem_map_session.mpr hne)
  simp only [ticksFrom] at h
  obtain ⟨p, hp1, h2⟩ := pyBind_ok_inv _ _ _ h
  obtain ⟨q, hq1, hq2⟩ := pyBind_ok_inv _ _ _ h2
  rw [Except.ok.injEq, Prod.mk.injEq] at hq2
  obtain ⟨he1, he2⟩ := hq2
  subst he1
  subst he2
  have hQP1 := tick_create i0 st x r p.1 p.2 hc0 hs0 hp0 hcrd (by rw [hp1])
  have hticks := ticks_QP x rest p.1 q.1 q.2 hcr hq1
  rw [tagCount_append]
  rcases hQP1 with ⟨hQ1, hcnt1⟩ | ⟨hP1, hcnt1⟩
  · have hfin := hticks.1 (Or.inl hQ1)
    have hbound := hticks.2.1 hQ1
    exact ⟨QP_count q.1 x hfin, by omega⟩
  · have hfin := hticks.1 (Or.inr hP1)
    have hbound := hticks.2.2 hP1
    exact ⟨QP_count q.1 x hfin, by omega⟩

/-- Witness for `lifecycle_unique` part (b): the spec's example session
observed once from an empty installation yields one record and one
announcement. -/
theorem lifecycle_unique_witness :
    (schedFor demoSt "9-10pm, Friday 24th October").length +
      (pastFor demoSt "9-10pm, Friday 24th October").length = 1 ∧
    tagCount .announced "9-10pm, Friday 24th October"
      [⟨.announced, "9-10pm, Friday 24th October"⟩] ≤ 1 :=
  lifecycle_unique.2 ⟨[], [], []⟩ demoInput [] "9-10pm, Friday 24th October"
    demoSt [⟨.announced, "9-10pm, Friday 24th October"⟩] sessRec
    Reachable.init (by simp [stStrings]) rfl (by simp) (by rfl) (by rfl)

/-! # Lemmas for weekday irrelevance (C10) -/

theorem splitOnC_ne_nil (sep : Char) (l : List Char) : splitOnC sep l ≠ [] := by
  cases l with
  | nil => simp [splitOnC]
  | cons c cs =>
    simp only [splitOnC]
    rcases splitOnC sep cs with _ | ⟨h0, t0⟩
    · simp
    · split_ifs <;> simp

theorem splitOnC_no_sep (sep : Char) : ∀ l : List Char, sep ∉ l →
    splitOnC sep l = [l] := by
  intro l
  induction l with
  | nil => intro _; rfl
  | cons c cs ih =>
    intro h
    simp only [splitOnC, ih (fun hm => h (List.mem_cons_of_mem _ hm))]
    rw [if_neg (fun (he : c = sep) => h (he ▸ List.mem_cons_self c cs))]

theorem splitOnC_sep_append (sep : Char) : ∀ (a b : List Char), sep ∉ a →
    splitOnC sep (a ++ sep :: b) = a :: splitOnC sep b := by
  intro a
  induction a with
  | nil =>
    intro b _
    simp only [List.nil_append, splitOnC]
    rcases hsb : splitOnC sep b with _ | ⟨h0, t0⟩
    · exact absurd hsb (splitOnC_ne_nil sep b)
    · simp
  | cons c cs ih =>
    intro b h
    simp only [List.cons_append, splitOnC, List.append_eq]
    rw [ih b (fun hm => h (List.mem_cons_of_mem _ hm))]
    dsimp only
    rw [if_neg (fun (he : c = sep) => h (he ▸ List.mem_cons_self c cs))]

theorem dropWhileAppend (p : Char → Bool) : ∀ (A B : List Char),
    (A ++ B).dropWhile p =
      if (A.dropWhile p).isEmpty then B.dropWhile p else A.dropWhile p ++ B := by
  intro A
  induction A with
  | nil => intro B; simp
  | cons a A' ih =>
    intro B
    by_cases hp : p a
    · rw [List.cons_append, List.dropWhile_cons_of_pos hp,
          List.dropWhile_cons_of_pos hp, ih B]
    · rw [List.cons_append, List.dropWhile_cons_of_neg hp,
          List.dropWhile_cons_of_neg hp]
      simp

theorem pyStrip_name (w rest : List Char)
    (h1 : w ≠ []) (h2 : ∀ c ∈ w, ¬ isSpaceC c) :
    pyStrip (' ' :: (w ++ ' ' :: rest)) =
      w ++ ((' ' :: rest).reverse.dropWhile isSpaceC).reverse := by
  obtain ⟨c, cs, rfl⟩ : ∃ c cs, w = c :: cs := by
    cases w with
    | nil => cases h1 rfl
    | cons c cs => exact ⟨c, cs, rfl⟩
  unfold pyStrip
  rw [List.dropWhile_cons_of_pos (by rfl), List.cons_append,
      List.dropWhile_cons_of_neg (by simpa using h2 c (List.mem_cons_self _ _)),
      ← List.cons_append, List.reverse_append, dropWhileAppend]
  by_cases hemp : (((' ' :: rest).reverse).dropWhile isSpaceC).isEmpty
  · rw [if_pos hemp]
    have hdw : ((c :: cs).reverse).dropWhile isSpaceC = (c :: cs).reverse := by
      rcases hrev : (c :: cs).reverse with _ | ⟨d, ds⟩
      · rfl
      · have hd : d ∈ c :: cs := by
          rw [← List.mem_reverse, hrev]
          exact List.mem_cons_self _ _
        rw [List.dropWhile_cons_of_neg (by simpa using h2 d hd)]
    rw [hdw, List.reverse_reverse]
    have : (((' ' :: rest).reverse).dropWhile isSpaceC) = [] :=
      List.isEmpty_iff.mp hemp
    rw [this]
    simp
  · rw [if_neg hemp, List.reverse_append, List.reverse_reverse]

theorem stripOrdinals_cons_nondigit (c : Char) (l : List Char)
    (h : ¬ c.isDigit) :
    stripOrdinals (c :: l) = c :: stripOrdinals l := by
  simp only [stripOrdinals, List.length_cons, stripOrdGo]
  rw [if_neg h]

theorem stripOrdinals_append_nondigit (w : List Char)
    (h : ∀ c ∈ w, ¬ c.isDigit) :
    ∀ R, stripOrdinals (w ++ R) = w ++ stripOrdinals R := by
  induction w with
  | nil => intro R; rfl
  | cons c cs ih =>
    intro R
    rw [List.cons_append,
        stripOrdinals_cons_nondigit c _ (by simpa using h c (List.mem_cons_self _ _)),
        ih (fun d hd => h d (List.mem_cons_of_mem _ hd)) R]
    rfl

theorem weekday_consume (w : List Char) (hw : w ∈ weekdayNames) :
    ∀ S, ∃ i, matchFirstCI weekdayNames (w ++ S) = some (i, S) := by
  fin_cases hw <;> intro S <;> exact ⟨_, rfl⟩

theorem strptime_weekday_ignored (w1 w2 S : List Char)
    (hw1 : w1 ∈ weekdayNames) (hw2 : w2 ∈ weekdayNames) :
    strptimeAdBY (w1 ++ S) = strptimeAdBY (w2 ++ S) := by
  obtain ⟨i1, h1⟩ := weekday_consume w1 hw1 S
  obtain ⟨i2, h2⟩ := weekday_consume w2 hw2 S
  simp only [strptimeAdBY, h1, h2]

/-- **C10**: the weekday word of the date part is parsed but never checked
against the calendar date: two session strings that differ only in which
recognized weekday name appears resolve to identical start and end times,
and `"9-10pm, Monday 24th October"` — whose named weekday is wrong, since
2025-10-24 is a Friday — still resolves successfully (start 21:00). -/
theorem weekday_not_validated (now : PyDateTime) (w1 w2 tp rest : List Char)
    (hw1 : w1 ∈ weekdayNames) (hw2 : w2 ∈ weekdayNames)
    (htp : ',' ∉ tp) (hrest : ',' ∉ rest) :
    (parse_session_date now ⟨tp ++ ',' :: ' ' :: (w1 ++ ' ' :: rest)⟩ =
     parse_session_date now ⟨tp ++ ',' :: ' ' :: (w2 ++ ' ' :: rest)⟩) ∧
    (parse_session_end_date now ⟨tp ++ ',' :: ' ' :: (w1 ++ ' ' :: rest)⟩ =
     parse_session_end_date now ⟨tp ++ ',' :: ' ' :: (w2 ++ ' ' :: rest)⟩) ∧
    parse_session_date octNow "9-10pm, Monday 24th October" =
      .ok (some ⟨2025, 10, 24, 21, 0⟩) := by
  have hfacts : ∀ w ∈ weekdayNames,
      w ≠ [] ∧ ',' ∉ w ∧ (∀ c ∈ w, ¬ isSpaceC c) ∧ (∀ c ∈ w, ¬ c.isDigit) := by
    decide
  have hnosep : ∀ w ∈ weekdayNames, ',' ∉ ' ' :: (w ++ ' ' :: rest) := by
    intro w hw hmem
    rcases List.mem_cons.mp hmem with hc | hc
    · cases hc
    · rcases List.mem_append.mp hc with hc2 | hc2
      · exact (hfacts w hw).2.1 hc2
      · rcases List.mem_cons.mp hc2 with hc3 | hc3
        · cases hc3
        · exact hrest hc3
  have hsplitA : splitOnC ',' (String.mk (tp ++ ',' :: ' ' :: (w1 ++ ' ' :: rest))).data =
      [tp, ' ' :: (w1 ++ ' ' :: rest)] := by
    show splitOnC ',' (tp ++ ',' :: ' ' :: (w1 ++ ' ' :: rest)) = _
    rw [splitOnC_sep_append ',' tp _ htp, splitOnC_no_sep ',' _ (hnosep w1 hw1)]
  have hsplitB : splitOnC ',' (String.mk (tp ++ ',' :: ' ' :: (w2 ++ ' ' :: rest))).data =
      [tp, ' ' :: (w2 ++ ' ' :: rest)] := by
    show splitOnC ',' (tp ++ ',' :: ' ' :: (w2 ++ ' ' :: rest)) = _
    rw [splitOnC_sep_append ',' tp _ htp, splitOnC_no_sep ',' _ (hnosep w2 hw2)]
  have hdate : ∀ w ∈ weekdayNames,
      stripOrdinals (pyStrip (' ' :: (w ++ ' ' :: rest))) =
        w ++ stripOrdinals (((' ' :: rest).reverse.dropWhile isSpaceC).reverse) := by
    intro w hw
    rw [pyStrip_name w rest (hfacts w hw).1 (hfacts w hw).2.2.1]
    exact stripOrdinals_append_nondigit w (hfacts w hw).2.2.2 _
  refine ⟨?_, ?_, by rfl⟩
  · simp only [parse_session_date]
    rw [hsplitA, hsplitB]
    dsimp only
    rw [hdate w1 hw1, hdate w2 hw2, List.append_assoc, List.append_assoc,
        strptime_weekday_ignored w1 w2 _ hw1 hw2]
  · simp only [parse_session_end_date]
    rw [hsplitA, hsplitB]
    dsimp only
    rw [hdate w1 hw1, hdate w2 hw2, List.append_assoc, List.append_assoc,
        strptime_weekday_ignored w1 w2 _ hw1 hw2]

/-- Witness for `weekday_not_validated`: `"Friday"` against `"Monday"` on
the spec's example date. -/
theorem weekday_not_validated_witness :
    parse_session_date octNow
        ⟨"9-10pm".data ++ ',' :: ' ' :: ("friday".data ++ ' ' :: "24th October".data)⟩ =
      parse_session_date octNow
        ⟨"9-10pm".data ++ ',' :: ' ' :: ("monday".data ++ ' ' :: "24th October".data)⟩ :=
  (weekday_not_validated octNow "friday".data "monday".data "9-10pm".data
    "24th October".data (by decide) (by decide) (by decide) (by decide)).1

end Octofree
